import Mathlib

/-!
Verification of the SophonSite animation core: procedural gore geometry,
helical twist deformation, the timed animation state machine, and the
panel-constrained ball simulation.  Each definition is a shallow embedding
of the corresponding TypeScript function; machine floats are modelled as
exact reals (ℝ) for the geometric code and exact rationals (ℚ) for the
state machine, whose constants are all rational.
-/

namespace Sophon

/-- Grid topology selector, from `core/geometry.ts`. -/
inductive GridMode
  | rectangular
  | minimal
  | triangular
  | radial
  deriving DecidableEq

/-- Linear interpolation `a + (b - a) * t`, from `core/geometry.ts` (`lerp`). -/
def lerp {K : Type} [Field K] (a b t : K) : K := a + (b - a) * t

/-- Cubic ease-in-out from `core/geometry.ts` (`easeInOutCubic`). -/
def easeInOutCubic {K : Type} [LinearOrderedField K] (t : K) : K :=
  if t < 1/2 then 4 * t * t * t else 1 - (-2 * t + 2) ^ 3 / 2

/-- Latitude step count per grid mode (`createGoreGeometry`). -/
def latitudeSteps : GridMode → ℕ
  | .minimal => 3
  | .triangular => 20
  | .radial => 12
  | .rectangular => 16

/-- Longitude step count per grid mode (`createGoreGeometry`). -/
def longitudeSteps : GridMode → ℕ
  | .minimal => 2
  | .triangular => 10
  | .radial => 24
  | .rectangular => 8

/-- The `phi` latitude angle of a grid vertex (`createGoreGeometry`). -/
noncomputable def gorePhi (gridMode : GridMode) (lat : ℕ) : ℝ :=
  ((lat : ℝ) / latitudeSteps gridMode) * Real.pi

/-- The `theta` longitude angle of a grid vertex (`createGoreGeometry`),
using the `transitionProgress`-blended angular step. -/
noncomputable def goreTheta (gridMode : GridMode) (goreIndex : ℕ)
    (currentNumGores : ℕ) (transitionProgress : ℝ) (lon : ℕ) : ℝ :=
  let sphericalAngleStep :=
    lerp (Real.pi * 2 / currentNumGores) (Real.pi * 2 / 3) transitionProgress
  let startAngle := goreIndex * sphericalAngleStep
  let endAngle := (goreIndex + 1) * sphericalAngleStep
  startAngle + ((lon : ℝ) / longitudeSteps gridMode) * (endAngle - startAngle)

/-- One vertex of the gore mesh, mirroring the body of the double loop in
`createGoreGeometry`: spherical position, flattened position, linear blend by
`unfoldProgress`, then the local `+sphereRadius` Y shift. -/
noncomputable def goreVertex (gridMode : GridMode) (goreIndex : ℕ)
    (unfoldProgress sphereRadius : ℝ) (currentNumGores : ℕ)
    (transitionProgress : ℝ) (lat lon : ℕ) : ℝ × ℝ × ℝ :=
  let latSteps := latitudeSteps gridMode
  let lonSteps := longitudeSteps gridMode
  let meridionalDistance := Real.pi * sphereRadius
  let flatYOffset := (-sphereRadius) - (-meridionalDistance / 2)
  let flatAngleStep :=
    lerp (Real.pi * 2 / currentNumGores) (Real.pi * 2 / 3) transitionProgress
  let phi := gorePhi gridMode lat
  let theta := goreTheta gridMode goreIndex currentNumGores transitionProgress lon
  let radius := Real.sin phi
  let x := sphereRadius * radius * Real.cos theta
  let y := sphereRadius * Real.cos phi
  let z := sphereRadius * radius * Real.sin theta
  let u := (lon : ℝ) / lonSteps
  let v := (lat : ℝ) / latSteps
  let flatY := meridionalDistance * (1/2 - v) + flatYOffset
  let maxWidth := flatAngleStep * sphereRadius
  let latitudeFromEquator := |phi - Real.pi / 2|
  let tapering := Real.cos latitudeFromEquator
  let edgeParameter := 2 * u - 1
  let concavity : ℝ := if gridMode = .minimal then 1/10 else 3/10
  let concaveFactor := 1 - concavity * (1 - edgeParameter * edgeParameter)
  let currentWidth := maxWidth * tapering * concaveFactor
  let flatX := if gridMode = .radial then
      Real.cos ((u - 1/2) * Real.pi) * ((1 - v) * (currentWidth / 2) * tapering)
    else edgeParameter * currentWidth / 2
  let flatZ := if gridMode = .radial then
      Real.sin ((u - 1/2) * Real.pi) * ((1 - v) * (currentWidth / 2) * tapering)
    else 0
  let finalX := (1 - unfoldProgress) * x + unfoldProgress * flatX
  let finalY := (1 - unfoldProgress) * y + unfoldProgress * flatY
  let finalZ := (1 - unfoldProgress) * z + unfoldProgress * flatZ
  (finalX, finalY + sphereRadius, finalZ)

/-- The ordered vertex list built by `createGoreGeometry` (the `points` array,
outer loop over latitude, inner loop over longitude, both inclusive). -/
noncomputable def createGoreGeometryPoints (gridMode : GridMode) (goreIndex : ℕ)
    (unfoldProgress sphereRadius : ℝ) (currentNumGores : ℕ)
    (transitionProgress : ℝ) : List (ℝ × ℝ × ℝ) :=
  (List.range (latitudeSteps gridMode + 1)).flatMap fun lat =>
    (List.range (longitudeSteps gridMode + 1)).map fun lon =>
      goreVertex gridMode goreIndex unfoldProgress sphereRadius currentNumGores
        transitionProgress lat lon

theorem createGoreGeometryPoints_length (gridMode : GridMode) (goreIndex : ℕ)
    (unfoldProgress sphereRadius : ℝ) (currentNumGores : ℕ)
    (transitionProgress : ℝ) :
    (createGoreGeometryPoints gridMode goreIndex unfoldProgress sphereRadius
        currentNumGores transitionProgress).length =
      (latitudeSteps gridMode + 1) * (longitudeSteps gridMode + 1) := by
  simp [createGoreGeometryPoints, Function.comp_def, mul_comm]

/-- The vertex counts the specification lists per grid mode. -/
def claimedVertexCount : GridMode → ℕ
  | .rectangular => 153
  | .minimal => 12
  | .triangular => 231
  | .radial => 325

/-- C1: for every grid mode, unfold progress in `[0,1]`, transition progress in
`[0,1]`, sphere radius, panel count and panel index, the mesh built by
`createGoreGeometry` has `(latitudeSteps+1)*(longitudeSteps+1)` vertices for
that mode's step counts (rectangular 153, minimal 12, triangular 231,
radial 325), independent of the progress values, radius and panel index. -/
theorem c1_vertex_count_depends_only_on_grid_mode (gridMode : GridMode)
    (goreIndex : ℕ) (unfoldProgress sphereRadius : ℝ) (currentNumGores : ℕ)
    (transitionProgress : ℝ)
    (hu0 : 0 ≤ unfoldProgress) (hu1 : unfoldProgress ≤ 1)
    (ht0 : 0 ≤ transitionProgress) (ht1 : transitionProgress ≤ 1) :
    (createGoreGeometryPoints gridMode goreIndex unfoldProgress sphereRadius
        currentNumGores transitionProgress).length =
      (latitudeSteps gridMode + 1) * (longitudeSteps gridMode + 1) ∧
    (latitudeSteps gridMode + 1) * (longitudeSteps gridMode + 1) =
      claimedVertexCount gridMode := by
  refine ⟨createGoreGeometryPoints_length _ _ _ _ _ _, ?_⟩
  cases gridMode <;> rfl

/-- C1 witness: instantiation at rectangular mode, progress 1/2, radius 11/5,
9 panels, panel 0. -/
theorem c1_vertex_count_witness :
    ((0:ℝ) ≤ 1/2 ∧ (1/2:ℝ) ≤ 1 ∧ (0:ℝ) ≤ 0 ∧ (0:ℝ) ≤ 1) ∧
    (createGoreGeometryPoints .rectangular 0 (1/2) (11/5) 9 0).length = 153 :=
  ⟨⟨by norm_num, by norm_num, le_refl 0, by norm_num⟩,
    (c1_vertex_count_depends_only_on_grid_mode .rectangular 0 (1/2) (11/5) 9 0
      (by norm_num) (by norm_num) (le_refl 0) (by norm_num)).1⟩

/-- C2: with `unfoldProgress = 0` every vertex of `createGoreGeometry` lies on
the sphere surface (after undoing the local `+sphereRadius` Y shift its
distance from the origin is `sphereRadius`), and with `unfoldProgress = 1` and
a non-radial grid mode every vertex has z-coordinate exactly `0`. -/
theorem c2_sphere_surface_and_flat_plane (gridMode : GridMode) (goreIndex : ℕ)
    (sphereRadius : ℝ) (currentNumGores : ℕ) (transitionProgress : ℝ)
    (hr : 0 ≤ sphereRadius) :
    (∀ p ∈ createGoreGeometryPoints gridMode goreIndex 0 sphereRadius
        currentNumGores transitionProgress,
      Real.sqrt (p.1 ^ 2 + (p.2.1 - sphereRadius) ^ 2 + p.2.2 ^ 2) =
        sphereRadius) ∧
    (gridMode ≠ .radial →
      ∀ p ∈ createGoreGeometryPoints gridMode goreIndex 1 sphereRadius
          currentNumGores transitionProgress,
        p.2.2 = 0) := by
  constructor
  · intro p hp
    simp only [createGoreGeometryPoints, List.mem_flatMap, List.mem_map,
      List.mem_range] at hp
    obtain ⟨lat, -, lon, -, rfl⟩ := hp
    have hsq : (goreVertex gridMode goreIndex 0 sphereRadius currentNumGores
          transitionProgress lat lon).1 ^ 2 +
        ((goreVertex gridMode goreIndex 0 sphereRadius currentNumGores
          transitionProgress lat lon).2.1 - sphereRadius) ^ 2 +
        (goreVertex gridMode goreIndex 0 sphereRadius currentNumGores
          transitionProgress lat lon).2.2 ^ 2 = sphereRadius ^ 2 := by
      have h1 := Real.sin_sq_add_cos_sq (gorePhi gridMode lat)
      have h2 := Real.sin_sq_add_cos_sq
        (goreTheta gridMode goreIndex currentNumGores transitionProgress lon)
      simp only [goreVertex]
      linear_combination
        (sphereRadius ^ 2 * Real.sin (gorePhi gridMode lat) ^ 2) * h2 +
          sphereRadius ^ 2 * h1
    rw [hsq, Real.sqrt_sq hr]
  · intro hgm p hp
    simp only [createGoreGeometryPoints, List.mem_flatMap, List.mem_map,
      List.mem_range] at hp
    obtain ⟨lat, -, lon, -, rfl⟩ := hp
    simp only [goreVertex, if_neg hgm]
    ring

/-- C2 witness: instantiation at minimal mode, radius 1, 9 panels, panel 0. -/
theorem c2_sphere_surface_witness :
    (0:ℝ) ≤ 1 ∧
    (∀ p ∈ createGoreGeometryPoints .minimal 0 0 1 9 0,
      Real.sqrt (p.1 ^ 2 + (p.2.1 - 1) ^ 2 + p.2.2 ^ 2) = 1) ∧
    (∀ p ∈ createGoreGeometryPoints .minimal 0 1 1 9 0, p.2.2 = 0) :=
  ⟨by norm_num,
    (c2_sphere_surface_and_flat_plane .minimal 0 1 9 0 (by norm_num)).1,
    (c2_sphere_surface_and_flat_plane .minimal 0 1 9 0 (by norm_num)).2
      (by decide)⟩

/-! ## Helical twist deformation (`Background.applyHelicalTwist`) -/

/-- The minimum vertex Y found by the scan in `applyHelicalTwist`
(`minY` starts at `+∞`, so on a nonempty mesh it is the least Y). -/
def twistMinY : List (ℝ × ℝ × ℝ) → ℝ
  | [] => 0
  | v :: vs => vs.foldl (fun m p => min m p.2.1) v.2.1

/-- The maximum vertex Y found by the scan in `applyHelicalTwist`. -/
def twistMaxY : List (ℝ × ℝ × ℝ) → ℝ
  | [] => 0
  | v :: vs => vs.foldl (fun m p => max m p.2.1) v.2.1

/-- Rotation of one vertex about the vertical (Y) axis, exactly the update
`nx = x*c - z*s`, `nz = x*s + z*c` performed by `applyHelicalTwist`. -/
noncomputable def rotateYVertex (angle : ℝ) (p : ℝ × ℝ × ℝ) : ℝ × ℝ × ℝ :=
  (p.1 * Real.cos angle - p.2.2 * Real.sin angle, p.2.1,
    p.1 * Real.sin angle + p.2.2 * Real.cos angle)

/-- `Background.applyHelicalTwist` on the vertex positions: no-op when
`amount01 <= 0`, otherwise rotate every vertex about Y by
`amount01 * twistTurns * 2π` scaled by the vertex height normalised over
`max(1e-6, maxY - minY)`. -/
noncomputable def applyHelicalTwist (twistTurns amount01 : ℝ)
    (verts : List (ℝ × ℝ × ℝ)) : List (ℝ × ℝ × ℝ) :=
  if amount01 ≤ 0 then verts
  else
    let minY := twistMinY verts
    let maxY := twistMaxY verts
    let range := max (1/1000000) (maxY - minY)
    let totalAngle := amount01 * twistTurns * (Real.pi * 2)
    verts.map fun p =>
      rotateYVertex (totalAngle * ((p.2.1 - minY) / range)) p

/-- C6 counterexample: a mesh whose vertical extent is zero (two vertices at
the same height, so both are top-most).  The claim demands both vertices be
rotated by the full angle `amount*totalTurns*2π`, but the code clamps the
extent to `1e-6`, yielding normalised height `0` and rotation angle `0`. -/
theorem c6_twist_counterexample :
    applyHelicalTwist (1/4) 1 [((1:ℝ), 5, 0), ((0:ℝ), 5, 1)] ≠
      [rotateYVertex ((1:ℝ) * (1/4) * (Real.pi * 2)) ((1:ℝ), 5, 0),
        rotateYVertex ((1:ℝ) * (1/4) * (Real.pi * 2)) ((0:ℝ), 5, 1)] := by
  have hL : applyHelicalTwist (1/4) 1 [((1:ℝ), 5, 0), ((0:ℝ), 5, 1)] =
      [((1:ℝ), 5, 0), ((0:ℝ), 5, 1)] := by
    have hmax : max (1/1000000 : ℝ) ((5:ℝ) - 5) = 1/1000000 := by norm_num
    simp only [applyHelicalTwist, twistMinY, twistMaxY, List.foldl, min_self,
      max_self, hmax, List.map]
    norm_num [rotateYVertex]
  have hang : (1:ℝ) * (1/4) * (Real.pi * 2) = Real.pi / 2 := by ring
  have hR : rotateYVertex ((1:ℝ) * (1/4) * (Real.pi * 2)) ((1:ℝ), 5, 0) =
      ((0:ℝ), 5, 1) := by
    rw [rotateYVertex, hang, Real.cos_pi_div_two, Real.sin_pi_div_two]
    norm_num
  intro h
  rw [hL, hR] at h
  have h1 := congrArg (fun l => l.headI.1) h
  norm_num at h1

/-- C6 (amended): `applyHelicalTwist` is a no-op when `amount01 <= 0`, and
when `amount01 > 0` and the mesh's vertical extent is at least the `1e-6`
clamping floor, every vertex is rotated about the Y axis by an angle
proportional to its height normalised over the extent: `0` at the bottom-most
vertex and `amount01 * twistTurns * 2π` at the top-most. -/
theorem c6_twist_rotation (twistTurns amount01 : ℝ)
    (verts : List (ℝ × ℝ × ℝ)) :
    (amount01 ≤ 0 → applyHelicalTwist twistTurns amount01 verts = verts) ∧
    (0 < amount01 →
      (1/1000000 : ℝ) ≤ twistMaxY verts - twistMinY verts →
      applyHelicalTwist twistTurns amount01 verts = verts.map fun p =>
        rotateYVertex (amount01 * twistTurns * (Real.pi * 2) *
          ((p.2.1 - twistMinY verts) /
            (twistMaxY verts - twistMinY verts))) p) := by
  constructor
  · intro h
    simp [applyHelicalTwist, h]
  · intro h hext
    rw [applyHelicalTwist, if_neg (not_le.mpr h)]
    simp only [max_eq_right hext]

/-- C6 witness: the no-op case at `amount01 = 0` and the rotation case on a
two-vertex mesh of vertical extent `1`. -/
theorem c6_twist_rotation_witness :
    (applyHelicalTwist (1/4) 0 [((1:ℝ), 0, 0)] = [((1:ℝ), 0, 0)]) ∧
    ((0:ℝ) < 1 ∧
      (1/1000000 : ℝ) ≤ twistMaxY [((1:ℝ), 0, 0), ((0:ℝ), 1, 0)] -
        twistMinY [((1:ℝ), 0, 0), ((0:ℝ), 1, 0)] ∧
      applyHelicalTwist (1/4) 1 [((1:ℝ), 0, 0), ((0:ℝ), 1, 0)] =
        [((1:ℝ), 0, 0), ((0:ℝ), 1, 0)].map fun p =>
          rotateYVertex ((1:ℝ) * (1/4) * (Real.pi * 2) *
            ((p.2.1 - twistMinY [((1:ℝ), 0, 0), ((0:ℝ), 1, 0)]) /
              (twistMaxY [((1:ℝ), 0, 0), ((0:ℝ), 1, 0)] -
                twistMinY [((1:ℝ), 0, 0), ((0:ℝ), 1, 0)]))) p) :=
  ⟨(c6_twist_rotation (1/4) 0 [((1:ℝ), 0, 0)]).1 (le_refl 0),
    by norm_num,
    by simp [twistMaxY, twistMinY]; norm_num,
    (c6_twist_rotation (1/4) 1 [((1:ℝ), 0, 0), ((0:ℝ), 1, 0)]).2 one_pos
      (by simp [twistMaxY, twistMinY]; norm_num)⟩

/-! ## Animation state machine (`Background` in `SophonAnimation.ts`)

The per-frame callback and the public triggers mutate a fixed set of class
fields; all numeric constants are rationals, so the machine state is embedded
over ℚ.  Scene-graph and DOM effects (`updateGores`, `createCircleOutlines`,
stage-text rendering, the completion callback) read the state but do not
write any of the embedded fields, except that `updatePositions(p)` stores
`currentPlacementProgress = p` and `spawnDefaultBalls` sets the ball flags;
those two writes are modelled. -/

/-- The named phases of the animation (`animationStep` strings). -/
inductive AnimationStep
  | INITIAL_CIRCLES_MOVE
  | FORMING_GORES
  | UNWRAPPING
  | UNWRAPPED_IDLE
  | WRAPPING
  | DEFORMING_GORES
  | EYE_IDLE
  deriving DecidableEq

/-- The wireframe display mode strings used by the state machine. -/
inductive WireMode
  | noneMode
  | wireframe
  | edges
  deriving DecidableEq

/-- THREE.MathUtils.clamp: `max(lo, min(hi, value))`. -/
def clamp {K : Type} [LinearOrder K] (value lo hi : K) : K :=
  max lo (min hi value)

/-- Configured phase durations in seconds (`Background.stepDurations`); the
two idle states have no configured duration (they wait for a trigger). -/
def stepDurations : AnimationStep → ℚ
  | .INITIAL_CIRCLES_MOVE => 13/2
  | .FORMING_GORES => 2
  | .UNWRAPPING => 8
  | .WRAPPING => 8
  | .DEFORMING_GORES => 2
  | _ => 0

/-- `STAGE_TYPE_SEC`. -/
def STAGE_TYPE_SEC : ℚ := 6/5

/-- `STAGE_BACK_SEC`. -/
def STAGE_BACK_SEC : ℚ := 1/2

/-- `STAGE_HOLD_FIRST_SEC`. -/
def STAGE_HOLD_FIRST_SEC : ℚ := 1

/-- `STAGE_HOLD_SECOND_SEC`. -/
def STAGE_HOLD_SECOND_SEC : ℚ := 4/5

/-- The state fields of `Background` read or mutated by the animation loop and
the public triggers.  `currentNumGores` is the panel-count configuration
(constant 9); it is read by the geometry rebuilds and never written.  `sphereY0..2` are the entries of `sphereYs`,
`reverseStartY0..2` those of `reverseStartYs`; `ballsPresent` models
`this.balls !== undefined`. -/
structure MachineState where
  animationStep : AnimationStep
  stepProgress : ℚ
  unwrappingT : ℚ
  eyeToCircleProgress : ℚ
  circleDrawProgress : ℚ
  goreDrawProgress : ℚ
  currentPlacementProgress : ℚ
  sphereY0 : ℚ
  sphereY1 : ℚ
  sphereY2 : ℚ
  reverseStartY0 : ℚ
  reverseStartY1 : ℚ
  reverseStartY2 : ℚ
  wireframeMode : WireMode
  wireframeTransitioning : Bool
  wireframeTransitionProgress : ℚ
  wireframeTransitionTarget : WireMode
  fgTextInit : Bool
  unwrTextInit : Bool
  stageText : String
  glowOutlineActive : Bool
  glowOutlineProgress : ℚ
  glowPulseIntensity : ℚ
  glowPostAnimating : Bool
  glowPostStart : ℚ
  pendingBallSpawn : Bool
  ballsSpawned : Bool
  ballsPresent : Bool
  currentNumGores : ℕ
  deriving DecidableEq

/-- `Background.updatePositions(progress)`: stores the placement progress;
its remaining work repositions scene objects only. -/
def updatePositionsState (progress : ℚ) (s : MachineState) : MachineState :=
  { s with currentPlacementProgress := progress }

/-- `Background.spawnDefaultBalls`: guarded by `ballsSpawned`; creates the
`BallsManager` and marks the balls as spawned. -/
def spawnDefaultBallsState (s : MachineState) : MachineState :=
  if s.ballsSpawned then s
  else { s with ballsPresent := true, ballsSpawned := true }

/-- The initial field values of a freshly constructed `Background`. -/
def initState : MachineState where
  animationStep := .INITIAL_CIRCLES_MOVE
  stepProgress := 0
  unwrappingT := 0
  eyeToCircleProgress := 0
  circleDrawProgress := 1
  goreDrawProgress := 0
  currentPlacementProgress := 0
  sphereY0 := 9/2
  sphereY1 := 9/2
  sphereY2 := 9/2
  reverseStartY0 := 9/2
  reverseStartY1 := 9/2
  reverseStartY2 := 9/2
  wireframeMode := .noneMode
  wireframeTransitioning := false
  wireframeTransitionProgress := 0
  wireframeTransitionTarget := .edges
  fgTextInit := false
  unwrTextInit := false
  stageText := "OBSERVE"
  glowOutlineActive := false
  glowOutlineProgress := 0
  glowPulseIntensity := 3/10
  glowPostAnimating := false
  glowPostStart := 0
  pendingBallSpawn := false
  ballsSpawned := false
  ballsPresent := false
  currentNumGores := 9

/-- The `INITIAL_CIRCLES_MOVE` case of the `switch` in the `animate`
callback (after `stepProgress += dt`). -/
def tickICM (s1 : MachineState) : MachineState :=
      let sp := s1.stepProgress
      let total := stepDurations .INITIAL_CIRCLES_MOVE
      let typeSec := STAGE_TYPE_SEC
      let holdSec := STAGE_HOLD_FIRST_SEC
      let morphSec : ℚ := 1
      let yMoveSec := max 0 (total - (typeSec + holdSec + morphSec))
      let sb :=
        if sp < typeSec then
          { s1 with eyeToCircleProgress := 0,
                    sphereY0 := 9/2, sphereY1 := 9/2, sphereY2 := 9/2 }
        else if sp < typeSec + holdSec then
          { s1 with eyeToCircleProgress := 0,
                    sphereY0 := 9/2, sphereY1 := 9/2, sphereY2 := 9/2 }
        else if sp < typeSec + holdSec + morphSec then
          { s1 with eyeToCircleProgress := (sp - typeSec - holdSec) / morphSec,
                    sphereY0 := 9/2, sphereY1 := 9/2, sphereY2 := 9/2 }
        else
          let rem := sp - (typeSec + holdSec + morphSec)
          let t3 := if 0 < yMoveSec then clamp (rem / yMoveSec) 0 1 else 1
          let tE := easeInOutCubic t3
          let rLarge : ℚ := 11/5
          let rMed : ℚ := 7/5
          let rSmall : ℚ := 3/4
          let largeCenter : ℚ := 9/2
          let smallAlignsToMediumCenter := largeCenter + (rSmall - rMed)
          let mediumAlignsToLargeCenter := largeCenter + (rMed - rLarge)
          let smallAlignsToLargeCenter := largeCenter + (rSmall - rLarge)
          if tE < 1/2 then
            let a := tE / (1/2)
            { s1 with eyeToCircleProgress := 1,
                      sphereY0 := largeCenter, sphereY1 := largeCenter,
                      sphereY2 := lerp largeCenter smallAlignsToMediumCenter a }
          else
            let b := (tE - 1/2) / (1/2)
            { s1 with eyeToCircleProgress := 1,
                      sphereY0 := largeCenter,
                      sphereY1 := lerp largeCenter mediumAlignsToLargeCenter b,
                      sphereY2 :=
                        lerp smallAlignsToMediumCenter smallAlignsToLargeCenter b }
      let sb := updatePositionsState 0 sb
      if sp ≥ total then
        { sb with animationStep := .FORMING_GORES, stepProgress := 0,
                  goreDrawProgress := 0, circleDrawProgress := 1,
                  wireframeMode := .noneMode,
                  wireframeTransitionTarget := .wireframe,
                  wireframeTransitioning := true,
                  wireframeTransitionProgress := 0,
                  unwrappingT := 0, fgTextInit := false }
      else sb

/-- The `FORMING_GORES` case of the `switch`. -/
def tickFG (s1 : MachineState) : MachineState :=
      let sa := if s1.fgTextInit then s1
                else { s1 with stageText := "DISCOVER", fgTextInit := true }
      let sp := sa.stepProgress
      let typeSec := STAGE_TYPE_SEC
      let holdSec := STAGE_HOLD_SECOND_SEC
      let goreDur := stepDurations .FORMING_GORES
      if sp < typeSec then
        { sa with goreDrawProgress := 0, circleDrawProgress := 1,
                  wireframeTransitionTarget := .wireframe,
                  wireframeTransitioning := true,
                  wireframeTransitionProgress := 0,
                  unwrappingT := 0, currentPlacementProgress := 0 }
      else if sp < typeSec + holdSec then
        { sa with goreDrawProgress := 0, circleDrawProgress := 1,
                  wireframeTransitionTarget := .wireframe,
                  wireframeTransitioning := true,
                  wireframeTransitionProgress := 0,
                  unwrappingT := 0, currentPlacementProgress := 0 }
      else
        let tg := min 1 ((sp - typeSec - holdSec) / goreDur)
        let sb := { sa with goreDrawProgress := tg, circleDrawProgress := 1 - tg,
                            wireframeTransitionTarget := .wireframe,
                            wireframeTransitioning := true,
                            wireframeTransitionProgress := tg,
                            unwrappingT := 0, currentPlacementProgress := 0 }
        if tg ≥ 1 then
          { sb with wireframeMode := .wireframe, wireframeTransitioning := false,
                    wireframeTransitionProgress := 1, goreDrawProgress := 1,
                    circleDrawProgress := 0, unwrappingT := 0,
                    animationStep := .UNWRAPPING, stepProgress := 0,
                    unwrTextInit := false }
        else sb

/-- The `UNWRAPPING` case of the `switch`. -/
def tickUNW (s1 : MachineState) : MachineState :=
      let sa := if s1.unwrTextInit then s1
                else { s1 with stageText := "TRANSFORM", unwrTextInit := true }
      let sa := { sa with
        unwrappingT := min 1 (sa.stepProgress / stepDurations .UNWRAPPING) }
      let sa := if sa.wireframeMode ≠ .wireframe then
          { sa with wireframeMode := .wireframe, wireframeTransitioning := false }
        else sa
      let sa := updatePositionsState sa.unwrappingT sa
      if sa.unwrappingT ≥ 1 then
        let sb := { sa with unwrappingT := 1,
                            animationStep := .UNWRAPPED_IDLE, stepProgress := 0 }
        if sb.glowOutlineActive = true ∧ sb.glowOutlineProgress ≥ 1 ∧
            (sb.pendingBallSpawn = true ∨ sb.ballsSpawned = false) then
          { (spawnDefaultBallsState sb) with pendingBallSpawn := false }
        else sb
      else sa

/-- The `UNWRAPPED_IDLE` case of the `switch`. -/
def tickIdleU (s1 : MachineState) : MachineState :=
      if s1.glowOutlineActive = true then
        if s1.glowOutlineProgress ≥ 1 ∧ s1.pendingBallSpawn = true ∧
            s1.ballsSpawned = false then
          { (spawnDefaultBallsState s1) with pendingBallSpawn := false }
        else s1
      else s1

/-- The `WRAPPING` case of the `switch`. -/
def tickWRAP (s1 : MachineState) : MachineState :=
      let sa := { s1 with
        unwrappingT := 1 - min 1 (s1.stepProgress / stepDurations .WRAPPING) }
      let sa := if sa.wireframeMode ≠ .wireframe then
          { sa with wireframeMode := .wireframe, wireframeTransitioning := false }
        else sa
      let sa := updatePositionsState sa.unwrappingT sa
      if sa.unwrappingT ≤ 0 then
        { sa with unwrappingT := 0,
                  animationStep := .DEFORMING_GORES, stepProgress := 0,
                  wireframeTransitionTarget := .edges,
                  wireframeTransitioning := true,
                  wireframeTransitionProgress := 0,
                  wireframeMode := .wireframe,
                  reverseStartY0 := sa.sphereY0, reverseStartY1 := sa.sphereY1,
                  reverseStartY2 := sa.sphereY2 }
      else sa

/-- The `DEFORMING_GORES` case of the `switch`. -/
def tickDG (s1 : MachineState) : MachineState :=
      let t := min 1 (s1.stepProgress / stepDurations .DEFORMING_GORES)
      let sa := { s1 with circleDrawProgress := t, eyeToCircleProgress := 1 - t,
                          sphereY0 := lerp s1.reverseStartY0 (9/2) t,
                          sphereY1 := lerp s1.reverseStartY1 (9/2) t,
                          sphereY2 := lerp s1.reverseStartY2 (9/2) t }
      let sa := if sa.wireframeMode ≠ .edges ∨ sa.wireframeTransitioning = true then
          { sa with wireframeTransitioning := true,
                    wireframeTransitionTarget := .edges,
                    wireframeTransitionProgress := t }
        else sa
      let sa := { sa with currentPlacementProgress := 0 }
      if t ≥ 1 then
        { sa with wireframeTransitioning := false, wireframeMode := .noneMode,
                  animationStep := .EYE_IDLE, stepProgress := 0 }
      else sa

/-- The `EYE_IDLE` case of the `switch`. -/
def tickEYE (s1 : MachineState) : MachineState :=
      { s1 with unwrappingT := 0, goreDrawProgress := 0, circleDrawProgress := 1,
                wireframeTransitioning := false, wireframeMode := .noneMode,
                currentPlacementProgress := 0 }

/-- The code after the `switch` in the `animate` callback: the post-typing
glow tween (wall-clock driven) and the deferred ball spawn in idle. -/
def tickPost (now : ℚ) (s2 : MachineState) : MachineState :=
  let s3 :=
    if s2.glowPostAnimating = true then
      let t := min 1 ((now - s2.glowPostStart) / 2000)
      let sa := { s2 with glowOutlineProgress := t }
      if t ≥ 1 then { sa with glowPostAnimating := false } else sa
    else s2
  if s3.animationStep = .UNWRAPPED_IDLE ∧ s3.pendingBallSpawn = true ∧
      s3.glowOutlineActive = true ∧ s3.glowOutlineProgress ≥ 1 ∧
      s3.ballsSpawned = false then
    { (spawnDefaultBallsState s3) with pendingBallSpawn := false }
  else s3

/-- One frame of the `animate` callback in `Background.startAnimation`:
`stepProgress += dt`, then the `switch` on `animationStep` (the per-phase
bodies above), then the post-switch work.  `now` is the wall-clock
milliseconds value used by the glow tween. -/
def tick (dt now : ℚ) (s0 : MachineState) : MachineState :=
  let s1 := { s0 with stepProgress := s0.stepProgress + dt }
  let s2 : MachineState :=
    match s1.animationStep with
    | .INITIAL_CIRCLES_MOVE => tickICM s1
    | .FORMING_GORES => tickFG s1
    | .UNWRAPPING => tickUNW s1
    | .UNWRAPPED_IDLE => tickIdleU s1
    | .WRAPPING => tickWRAP s1
    | .DEFORMING_GORES => tickDG s1
    | .EYE_IDLE => tickEYE s1
  tickPost now s2

/-- `Background.startWrap`: guarded to act only from `UNWRAPPED_IDLE`. -/
def startWrap (s : MachineState) : MachineState :=
  if s.animationStep ≠ .UNWRAPPED_IDLE then s
  else
    let sa := { s with animationStep := .WRAPPING, stepProgress := 0,
                       reverseStartY0 := s.sphereY0, reverseStartY1 := s.sphereY1,
                       reverseStartY2 := s.sphereY2,
                       pendingBallSpawn := false }
    if sa.ballsPresent then
      { sa with ballsPresent := false, ballsSpawned := false }
    else sa

/-- `Background.startUnwrap`: guarded to act only from `EYE_IDLE`. -/
def startUnwrap (s : MachineState) : MachineState :=
  if s.animationStep ≠ .EYE_IDLE then s
  else
    { s with eyeToCircleProgress := 0, circleDrawProgress := 1,
             goreDrawProgress := 0, wireframeMode := .noneMode,
             wireframeTransitioning := false, wireframeTransitionProgress := 0,
             unwrappingT := 0,
             sphereY0 := 9/2, sphereY1 := 9/2, sphereY2 := 9/2,
             animationStep := .INITIAL_CIRCLES_MOVE, stepProgress := 0 }

/-- Advance the machine by `n` frames of fixed duration `1/60` s. -/
def runFrames (n : ℕ) (s : MachineState) : MachineState :=
  match n with
  | 0 => s
  | n + 1 => runFrames n (tick (1/60) 0 s)

/-- Projection of the machine state onto the fields that drive the phase
transitions: active step, elapsed time within the step, unfold progress. -/
def proj (s : MachineState) : AnimationStep × ℚ × ℚ :=
  (s.animationStep, s.stepProgress, s.unwrappingT)

/-- The action of `tick` on the transition-driving projection. -/
def projTick (dt : ℚ) (x : AnimationStep × ℚ × ℚ) : AnimationStep × ℚ × ℚ :=
  let sp := x.2.1 + dt
  match x.1 with
  | .INITIAL_CIRCLES_MOVE =>
      if sp ≥ 13/2 then (.FORMING_GORES, 0, 0)
      else (.INITIAL_CIRCLES_MOVE, sp, x.2.2)
  | .FORMING_GORES =>
      if sp < 6/5 then (.FORMING_GORES, sp, 0)
      else if sp < 6/5 + 4/5 then (.FORMING_GORES, sp, 0)
      else if min 1 ((sp - 6/5 - 4/5) / 2) ≥ 1 then (.UNWRAPPING, 0, 0)
      else (.FORMING_GORES, sp, 0)
  | .UNWRAPPING =>
      if min 1 (sp / 8) ≥ 1 then (.UNWRAPPED_IDLE, 0, 1)
      else (.UNWRAPPING, sp, min 1 (sp / 8))
  | .UNWRAPPED_IDLE => (.UNWRAPPED_IDLE, sp, x.2.2)
  | .WRAPPING =>
      if 1 - min 1 (sp / 8) ≤ 0 then (.DEFORMING_GORES, 0, 0)
      else (.WRAPPING, sp, 1 - min 1 (sp / 8))
  | .DEFORMING_GORES =>
      if min 1 (sp / 2) ≥ 1 then (.EYE_IDLE, 0, x.2.2)
      else (.DEFORMING_GORES, sp, x.2.2)
  | .EYE_IDLE => (.EYE_IDLE, sp, 0)

theorem proj_tickPost (now : ℚ) (s : MachineState) :
    proj (tickPost now s) = proj s := by
  simp only [tickPost, spawnDefaultBallsState, proj]
  split_ifs <;> rfl

theorem proj_tickICM (s : MachineState) :
    proj (tickICM s) =
      if s.stepProgress ≥ 13/2 then (.FORMING_GORES, 0, 0)
      else (s.animationStep, s.stepProgress, s.unwrappingT) := by
  simp only [tickICM, updatePositionsState, stepDurations, STAGE_TYPE_SEC,
    STAGE_HOLD_FIRST_SEC, proj]
  split_ifs <;> rfl

theorem proj_tickFG (s : MachineState) :
    proj (tickFG s) =
      if s.stepProgress < 6/5 then (s.animationStep, s.stepProgress, 0)
      else if s.stepProgress < 6/5 + 4/5 then (s.animationStep, s.stepProgress, 0)
      else if min 1 ((s.stepProgress - 6/5 - 4/5) / 2) ≥ 1 then
        (.UNWRAPPING, 0, 0)
      else (s.animationStep, s.stepProgress, 0) := by
  simp only [tickFG, stepDurations, STAGE_TYPE_SEC, STAGE_HOLD_SECOND_SEC, proj]
  split_ifs <;> rfl

theorem proj_tickUNW (s : MachineState) :
    proj (tickUNW s) =
      if min 1 (s.stepProgress / 8) ≥ 1 then (.UNWRAPPED_IDLE, 0, 1)
      else (s.animationStep, s.stepProgress, min 1 (s.stepProgress / 8)) := by
  simp only [tickUNW, updatePositionsState, spawnDefaultBallsState,
    stepDurations, proj]
  split_ifs <;> rfl

theorem proj_tickIdleU (s : MachineState) :
    proj (tickIdleU s) = proj s := by
  simp only [tickIdleU, spawnDefaultBallsState, proj]
  split_ifs <;> rfl

theorem proj_tickWRAP (s : MachineState) :
    proj (tickWRAP s) =
      if 1 - min 1 (s.stepProgress / 8) ≤ 0 then (.DEFORMING_GORES, 0, 0)
      else (s.animationStep, s.stepProgress, 1 - min 1 (s.stepProgress / 8)) := by
  simp only [tickWRAP, updatePositionsState, stepDurations, proj]
  split_ifs <;> rfl

theorem proj_tickDG (s : MachineState) :
    proj (tickDG s) =
      if min 1 (s.stepProgress / 2) ≥ 1 then (.EYE_IDLE, 0, s.unwrappingT)
      else (s.animationStep, s.stepProgress, s.unwrappingT) := by
  simp only [tickDG, stepDurations, proj]
  split_ifs <;> rfl

theorem proj_tickEYE (s : MachineState) :
    proj (tickEYE s) = (s.animationStep, s.stepProgress, 0) := by
  simp only [tickEYE, proj]

theorem proj_tick (dt now : ℚ) (s : MachineState) :
    proj (tick dt now s) = projTick dt (proj s) := by
  obtain ⟨step, sp, t, eye, cd, gd, cp, y0, y1, y2, r0, r1, r2, wm, wt, wp, wtt,
    fg, uw, st, ga, gp, gpi, gpa, gps, pb, bs, bp, ng⟩ := s
  cases step
  case INITIAL_CIRCLES_MOVE =>
    simp only [tick]
    rw [proj_tickPost, proj_tickICM]
    simp [projTick, proj]
  case FORMING_GORES =>
    simp only [tick]
    rw [proj_tickPost, proj_tickFG]
    simp [projTick, proj]
  case UNWRAPPING =>
    simp only [tick]
    rw [proj_tickPost, proj_tickUNW]
    simp [projTick, proj]
  case UNWRAPPED_IDLE =>
    simp only [tick]
    rw [proj_tickPost, proj_tickIdleU]
    simp [projTick, proj]
  case WRAPPING =>
    simp only [tick]
    rw [proj_tickPost, proj_tickWRAP]
    simp [projTick, proj]
  case DEFORMING_GORES =>
    simp only [tick]
    rw [proj_tickPost, proj_tickDG]
    simp [projTick, proj]
  case EYE_IDLE =>
    simp only [tick]
    rw [proj_tickPost, proj_tickEYE]
    simp [projTick, proj]

/-- Iterate the transition projection over frames of `1/60` s. -/
def projRunN (n : ℕ) (x : AnimationStep × ℚ × ℚ) : AnimationStep × ℚ × ℚ :=
  match n with
  | 0 => x
  | n + 1 => projRunN n (projTick (1/60) x)

theorem proj_runFrames (n : ℕ) (s : MachineState) :
    proj (runFrames n s) = projRunN n (proj s) := by
  induction n generalizing s with
  | zero => rfl
  | succ n ih => simp only [runFrames, projRunN, ih, proj_tick]

theorem projRunN_succ (k : ℕ) (x : AnimationStep × ℚ × ℚ) :
    projRunN (k + 1) x = projTick (1/60) (projRunN k x) := by
  induction k generalizing x with
  | zero => rfl
  | succ k ih =>
      show projRunN (k + 1) (projTick (1/60) x) = _
      rw [ih]
      rfl

theorem projRunN_add (a b : ℕ) (x : AnimationStep × ℚ × ℚ) :
    projRunN (a + b) x = projRunN b (projRunN a x) := by
  induction a generalizing x with
  | zero =>
      rw [Nat.zero_add]
      rfl
  | succ a ih =>
      have h : a + 1 + b = (a + b) + 1 := by omega
      rw [h]
      show projRunN (a + b) (projTick (1/60) x) = _
      rw [ih]
      rfl

theorem icm_phase (k : ℕ) (hk : k ≤ 389) :
    projRunN k (.INITIAL_CIRCLES_MOVE, 0, 0) =
      (.INITIAL_CIRCLES_MOVE, (k : ℚ) / 60, 0) := by
  induction k with
  | zero => norm_num [projRunN]
  | succ k ih =>
      have hk' : k ≤ 389 := by omega
      rw [projRunN_succ, ih hk']
      simp only [projTick]
      have hlt : (k : ℚ) / 60 + 1 / 60 < 13 / 2 := by
        have hkq : (k : ℚ) ≤ 388 := by exact_mod_cast (by omega : k ≤ 388)
        linarith
      rw [if_neg (not_le.mpr hlt)]
      have : ((k : ℚ) + 1) / 60 = (k : ℚ) / 60 + 1 / 60 := by ring
      simp [Prod.ext_iff]
      push_cast
      ring

theorem icm_exit :
    projRunN 390 (.INITIAL_CIRCLES_MOVE, 0, 0) = (.FORMING_GORES, 0, 0) := by
  rw [show (390 : ℕ) = 389 + 1 from rfl, projRunN_succ,
    icm_phase 389 (le_refl 389)]
  simp only [projTick]
  norm_num

theorem fg_phase (k : ℕ) (hk : k ≤ 239) :
    projRunN k (.FORMING_GORES, 0, 0) = (.FORMING_GORES, (k : ℚ) / 60, 0) := by
  induction k with
  | zero => norm_num [projRunN]
  | succ k ih =>
      have hk' : k ≤ 239 := by omega
      rw [projRunN_succ, ih hk']
      simp only [projTick]
      have hkq : (k : ℚ) ≤ 238 := by exact_mod_cast (by omega : k ≤ 238)
      have hlt : (k : ℚ) / 60 + 1 / 60 < 4 := by linarith
      have hpush : ((k : ℚ) + 1) / 60 = (k : ℚ) / 60 + 1 / 60 := by ring
      split_ifs with h1 h2 h3
      · simp [Prod.ext_iff]; push_cast; ring
      · simp [Prod.ext_iff]; push_cast; ring
      · exfalso
        have h4 := (le_min_iff.mp h3).2
        linarith
      · simp [Prod.ext_iff]; push_cast; ring

theorem fg_exit : projRunN 240 (.FORMING_GORES, 0, 0) = (.UNWRAPPING, 0, 0) := by
  rw [show (240 : ℕ) = 239 + 1 from rfl, projRunN_succ,
    fg_phase 239 (le_refl 239)]
  simp only [projTick]
  norm_num [min_def]

theorem unw_phase (k : ℕ) (hk : k ≤ 479) :
    projRunN k (.UNWRAPPING, 0, 0) =
      (.UNWRAPPING, (k : ℚ) / 60, (k : ℚ) / 480) := by
  induction k with
  | zero => norm_num [projRunN]
  | succ k ih =>
      have hk' : k ≤ 479 := by omega
      rw [projRunN_succ, ih hk']
      simp only [projTick]
      have hkq : (k : ℚ) ≤ 478 := by exact_mod_cast (by omega : k ≤ 478)
      have hlt : ((k : ℚ) / 60 + 1 / 60) / 8 < 1 := by linarith
      rw [if_neg (not_le.mpr (min_lt_iff.mpr (Or.inr hlt))),
        min_eq_right hlt.le]
      simp [Prod.ext_iff]
      push_cast
      constructor <;> ring

theorem unw_exit :
    projRunN 480 (.UNWRAPPING, 0, 0) = (.UNWRAPPED_IDLE, 0, 1) := by
  rw [show (480 : ℕ) = 479 + 1 from rfl, projRunN_succ,
    unw_phase 479 (le_refl 479)]
  simp only [projTick]
  norm_num [min_def]

theorem run990 :
    proj (runFrames 990 initState) = (.UNWRAPPING, 6, 3/4) := by
  have h0 : proj initState = (.INITIAL_CIRCLES_MOVE, 0, 0) := rfl
  rw [proj_runFrames, h0, show (990 : ℕ) = 390 + 240 + 360 from rfl,
    projRunN_add, projRunN_add, icm_exit, fg_exit,
    unw_phase 360 (by norm_num)]
  norm_num [Prod.ext_iff]

theorem run1110 :
    proj (runFrames 1110 initState) = (.UNWRAPPED_IDLE, 0, 1) := by
  have h0 : proj initState = (.INITIAL_CIRCLES_MOVE, 0, 0) := rfl
  rw [proj_runFrames, h0, show (1110 : ℕ) = 390 + 240 + 480 from rfl,
    projRunN_add, projRunN_add, icm_exit, fg_exit, unw_exit]

/-- C3 counterexample: running the machine from its initial state for exactly
16.5 s of simulated time (990 fixed 1/60 s frames) does NOT leave it in
`UNWRAPPED_IDLE` with unfold progress 1: it is still in `UNWRAPPING` with
`unwrappingT = 3/4`, because the `FORMING_GORES` phase spends
1.2 s + 0.8 s on its caption before the configured 2.0 s gore draw. -/
theorem c3_counterexample_990_frames :
    ¬ ((runFrames 990 initState).animationStep = .UNWRAPPED_IDLE ∧
      (runFrames 990 initState).unwrappingT = 1) := by
  rintro ⟨h1, -⟩
  have h := run990
  simp only [proj, Prod.mk.injEq] at h
  rw [h1] at h
  exact absurd h.1 (by decide)

/-- C3 (amended): with panel count 9 (`initState.currentNumGores = 9`),
advancing the machine in fixed 1/60 s steps for 6.5 + (1.2 + 0.8 + 2.0) + 8.0
= 18.5 s of simulated time (1110 frames) leaves it in `UNWRAPPED_IDLE` with
unfold progress `unwrappingT` pinned at exactly 1; after the claimed
6.5 + 2.0 + 8.0 = 16.5 s it is still in `UNWRAPPING` with progress 3/4. -/
theorem c3_full_sequence_reaches_idle :
    initState.currentNumGores = 9 ∧
    (runFrames 1110 initState).animationStep = .UNWRAPPED_IDLE ∧
    (runFrames 1110 initState).unwrappingT = 1 ∧
    (runFrames 990 initState).animationStep = .UNWRAPPING ∧
    (runFrames 990 initState).unwrappingT = 3/4 := by
  have h1 := run1110
  have h2 := run990
  simp only [proj, Prod.mk.injEq] at h1 h2
  exact ⟨rfl, h1.1, h1.2.2, h2.1, h2.2.2⟩

/-- C5: the external triggers are guarded by the idle states.  From
`EYE_IDLE`, `startUnwrap` moves to `INITIAL_CIRCLES_MOVE` with elapsed time
reset to 0, while `startWrap` leaves the whole state unchanged; in general
`startUnwrap` is a strict no-op outside `EYE_IDLE` and `startWrap` a strict
no-op outside `UNWRAPPED_IDLE`. -/
theorem c5_trigger_guards (s : MachineState) :
    (s.animationStep = .EYE_IDLE →
      (startUnwrap s).animationStep = .INITIAL_CIRCLES_MOVE ∧
      (startUnwrap s).stepProgress = 0) ∧
    (s.animationStep ≠ .EYE_IDLE → startUnwrap s = s) ∧
    (s.animationStep ≠ .UNWRAPPED_IDLE → startWrap s = s) ∧
    (s.animationStep = .EYE_IDLE → startWrap s = s) := by
  refine ⟨?_, ?_, ?_, ?_⟩
  · intro h
    rw [startUnwrap, if_neg (not_not_intro h)]
    exact ⟨rfl, rfl⟩
  · intro h
    rw [startUnwrap, if_pos h]
  · intro h
    rw [startWrap, if_pos h]
  · intro h
    rw [startWrap, if_pos (by simp [h])]

/-- A machine state resting in the eye idle phase. -/
def eyeIdleState : MachineState := { initState with animationStep := .EYE_IDLE }

/-- C5 witness: the triggers evaluated at a concrete `EYE_IDLE` state. -/
theorem c5_trigger_guards_witness :
    ((startUnwrap eyeIdleState).animationStep = .INITIAL_CIRCLES_MOVE ∧
      (startUnwrap eyeIdleState).stepProgress = 0) ∧
    startWrap eyeIdleState = eyeIdleState :=
  ⟨(c5_trigger_guards eyeIdleState).1 rfl,
    (c5_trigger_guards eyeIdleState).2.2.2 rfl⟩

/-! ## Ball simulation (`BallsManager` in `core/balls.ts`)

Local 2D points and velocities are `ℝ × ℝ`.  The `Math.random()` draws made
by one `update` call are supplied as explicit inputs (`BallRand`): the
simulation itself is otherwise deterministic. -/

/-- 2D vector length (`THREE.Vector2.length`). -/
noncomputable def vecLength (v : ℝ × ℝ) : ℝ := Real.sqrt (v.1 ^ 2 + v.2 ^ 2)

/-- Componentwise sum. -/
def addV (a b : ℝ × ℝ) : ℝ × ℝ := (a.1 + b.1, a.2 + b.2)

/-- Componentwise difference. -/
def subV (a b : ℝ × ℝ) : ℝ × ℝ := (a.1 - b.1, a.2 - b.2)

/-- Scalar multiple. -/
def smulV (c : ℝ) (v : ℝ × ℝ) : ℝ × ℝ := (c * v.1, c * v.2)

/-- `THREE.Vector2.lerp`: `v + (w - v) * alpha` componentwise. -/
def lerpV (v w : ℝ × ℝ) (alpha : ℝ) : ℝ × ℝ :=
  (v.1 + (w.1 - v.1) * alpha, v.2 + (w.2 - v.2) * alpha)

/-- `THREE.Vector2.normalize`: divide by `length() || 1` (a zero length is
replaced by 1, so the zero vector stays zero). -/
noncomputable def normalizeV (v : ℝ × ℝ) : ℝ × ℝ :=
  let l := vecLength v
  let d := if l = 0 then 1 else l
  (v.1 / d, v.2 / d)

/-- Euclidean distance (`THREE.Vector2.distanceTo`). -/
noncomputable def distV (a b : ℝ × ℝ) : ℝ :=
  Real.sqrt ((a.1 - b.1) ^ 2 + (a.2 - b.2) ^ 2)

/-- The 2D cross product `cross(o, a, b)` used by `buildConvexHull2D`. -/
def crossV (o a b : ℝ × ℝ) : ℝ :=
  (a.1 - o.1) * (b.2 - o.2) - (a.2 - o.2) * (b.1 - o.1)

/-- The epsilon-tolerant on-edge test inside `pointInPolygon`: the point is
within `1e-6` of the edge line and of the edge's coordinate ranges.
`vi` is the current vertex, `vj` the previous one. -/
def onEdgeProp (p vi vj : ℝ × ℝ) : Prop :=
  |(vj.1 - vi.1) * (p.2 - vi.2) - (vj.2 - vi.2) * (p.1 - vi.1)| < 1/1000000 ∧
  (p.1 - vi.1) * (p.1 - vj.1) ≤ 1/1000000 ∧
  (p.2 - vi.2) * (p.2 - vj.2) ≤ 1/1000000

/-- The ray-crossing test inside `pointInPolygon`: the edge straddles the
horizontal through `p` (half-open in y) and the crossing lies strictly to the
right of `p`; a zero y-span denominator is replaced by `1e-6` (the JS
`(yj - yi) || 1e-6`). -/
def intersectProp (p vi vj : ℝ × ℝ) : Prop :=
  (¬ ((vi.2 > p.2) ↔ (vj.2 > p.2))) ∧
  p.1 < (vj.1 - vi.1) * (p.2 - vi.2) /
      (if vj.2 - vi.2 = 0 then 1/1000000 else vj.2 - vi.2) + vi.1

noncomputable instance (p vi vj : ℝ × ℝ) : Decidable (onEdgeProp p vi vj) := by
  unfold onEdgeProp; infer_instance

noncomputable instance (p vi vj : ℝ × ℝ) : Decidable (intersectProp p vi vj) := by
  unfold intersectProp; infer_instance

/-- The loop of `pointInPolygon` over the edge list, with the early `true`
return on the on-edge case and the parity toggle on crossings. -/
noncomputable def pointInPolygonAux (p : ℝ × ℝ) :
    List ((ℝ × ℝ) × (ℝ × ℝ)) → Bool → Bool
  | [], inside => inside
  | (vi, vj) :: rest, inside =>
      if onEdgeProp p vi vj then true
      else pointInPolygonAux p rest (if intersectProp p vi vj then !inside else inside)

/-- The edge list traversed by `pointInPolygon`: pairs `(poly[i], poly[j])`
with `j = i-1` cyclically (`j` starts at the last index). -/
def polyEdges (poly : List (ℝ × ℝ)) : List ((ℝ × ℝ) × (ℝ × ℝ)) :=
  poly.zip (poly.rotate (poly.length - 1))

/-- `BallsManager.pointInPolygon`: ray casting with the epsilon on-edge
shortcut. -/
noncomputable def pointInPolygon (p : ℝ × ℝ) (poly : List (ℝ × ℝ)) : Bool :=
  pointInPolygonAux p (polyEdges poly) false

/-- `BallsManager.pointValidLocal`: inside the hull and inside none of the
exclusion polygons. -/
noncomputable def pointValidLocal (p : ℝ × ℝ) (hull : List (ℝ × ℝ))
    (exPolys : List (List (ℝ × ℝ))) : Bool :=
  pointInPolygon p hull && exPolys.all fun poly => !(pointInPolygon p poly)

/-- The sort order of `buildConvexHull2D`'s comparator: ascending x, ties by
ascending y. -/
def hullLe (a b : ℝ × ℝ) : Prop := a.1 < b.1 ∨ (a.1 = b.1 ∧ a.2 ≤ b.2)

noncomputable instance (a b : ℝ × ℝ) : Decidable (hullLe a b) := by
  unfold hullLe; infer_instance

/-- One `while`-pop-then-push step of the monotonic chain; the stack holds the
chain in reverse (most recent first), mirroring array push/pop at the end. -/
noncomputable def hullPush (p : ℝ × ℝ) : List (ℝ × ℝ) → List (ℝ × ℝ)
  | b :: a :: rest =>
      if crossV a b p ≤ 0 then hullPush p (a :: rest) else p :: b :: a :: rest
  | stack => p :: stack

/-- The monotonic-chain hull (lower chain then upper chain, each with its last
point popped), before the degenerate fallback. -/
noncomputable def rawChainHull (points : List (ℝ × ℝ)) : List (ℝ × ℝ) :=
  let pts := points.insertionSort hullLe
  let lowerStack := pts.foldl (fun st p => hullPush p st) []
  let upperStack := pts.reverse.foldl (fun st p => hullPush p st) []
  lowerStack.tail.reverse ++ upperStack.tail.reverse

/-- `BallsManager.buildConvexHull2D`: monotonic chain with a bounding-square
fallback when the chain yields fewer than 3 points. -/
noncomputable def buildConvexHull2D (points : List (ℝ × ℝ)) : List (ℝ × ℝ) :=
  let pts := points.insertionSort hullLe
  let hull := rawChainHull points
  if hull.length < 3 ∧ 0 < pts.length then
    let cx := (pts.map Prod.fst).sum / pts.length
    let cy := (pts.map Prod.snd).sum / pts.length
    let r := pts.foldl (fun m p => max m (distV p (cx, cy))) (1/100)
    [(cx - r, cy - r), (cx + r, cy - r), (cx + r, cy + r), (cx - r, cy + r)]
  else hull

/-- `BallsManager.randomVelocity(min, max)` with the two `Math.random()`
draws made explicit. -/
noncomputable def randomVelocity (lo hi aRand sRand : ℝ) : ℝ × ℝ :=
  let a := aRand * (Real.pi * 2)
  let s := lo + sRand * max 0 (hi - lo)
  (Real.cos a * s, Real.sin a * s)

/-- `BallsManager.randomPointInsideHull`: one barycentric sample in the fan
triangle `(centroid, hull[idx], hull[idx+1])`; `idxRand` models the random
edge choice (reduced mod the hull size), `u0, v0` the barycentric draws. -/
noncomputable def randomPointInsideHull (hull : List (ℝ × ℝ)) (centroid : ℝ × ℝ)
    (idxRand : ℕ) (u0 v0 : ℝ) : ℝ × ℝ :=
  if hull.length < 3 then centroid
  else
    let idx := idxRand % hull.length
    let a := centroid
    let b := hull.getD idx (0, 0)
    let c := hull.getD ((idx + 1) % hull.length) (0, 0)
    let u := if u0 + v0 > 1 then 1 - u0 else u0
    let v := if u0 + v0 > 1 then 1 - v0 else v0
    (a.1 + u * (b.1 - a.1) + v * (c.1 - a.1),
     a.2 + u * (b.2 - a.2) + v * (c.2 - a.2))

/-- The 16-direction probe fallback of `randomAllowedPointInside`: the first
valid point `centroid + 0.1 * (cos(aπ/8), sin(aπ/8))`, else the centroid. -/
noncomputable def probeFallback (hull : List (ℝ × ℝ))
    (exPolys : List (List (ℝ × ℝ))) (centroid : ℝ × ℝ) : ℝ × ℝ :=
  (((List.range 16).map fun a =>
      addV centroid (smulV (1/10)
        (Real.cos (a * Real.pi / 8), Real.sin (a * Real.pi / 8)))).find?
    fun p => pointValidLocal p hull exPolys).getD centroid

/-- `BallsManager.randomAllowedPointInside`: up to 20 fan samples (the draws
are the `tries` list entries), validated by `pointValidLocal`; on exhaustion
the 16-direction probe. -/
noncomputable def randomAllowedPointInside (hull : List (ℝ × ℝ))
    (exPolys : List (List (ℝ × ℝ))) (centroid : ℝ × ℝ) :
    List (ℕ × ℝ × ℝ) → ℝ × ℝ
  | [] => probeFallback hull exPolys centroid
  | (i, u, v) :: rest =>
      let p := randomPointInsideHull hull centroid i u v
      if pointValidLocal p hull exPolys then p
      else randomAllowedPointInside hull exPolys centroid rest

/-- The speed clamp in `BallsManager.update` (minS = 0.05, maxS = 0.22; both
tests read the pre-clamp speed `sp`). -/
noncomputable def clampSpeed (vel : ℝ × ℝ) : ℝ × ℝ :=
  let sp := vecLength vel
  let v1 := if sp > 11/50 then smulV ((11/50) / sp) vel else vel
  if sp < 1/20 then smulV ((1/20 + 1/1000000) / max sp (1/1000000)) v1 else v1

/-- The six-iteration bisection of `BallsManager.update`: search along
`pos + adjustedVel * (dt * mid)` for the last valid fraction, keeping the old
position when no tested point is valid. -/
noncomputable def bisectChosen (hull : List (ℝ × ℝ))
    (exPolys : List (List (ℝ × ℝ))) (pos adjVel : ℝ × ℝ) (dt : ℝ) :
    ℕ → ℝ → ℝ → ℝ × ℝ → ℝ × ℝ
  | 0, _, _, chosen => chosen
  | k + 1, lo, hi, chosen =>
      let mid := (lo + hi) / 2
      let test := addV pos (smulV (dt * mid) adjVel)
      if pointValidLocal test hull exPolys then
        bisectChosen hull exPolys pos adjVel dt k mid hi test
      else
        bisectChosen hull exPolys pos adjVel dt k lo mid chosen

/-- The per-agent state mutated by `BallsManager` (`GoreBall`), omitting the
render handles (`root`, `gore`, the materials themselves, `color`);
`coreOpacity`/`glowOpacity` are the two material opacities. -/
structure GoreBall where
  pos : ℝ × ℝ
  vel : ℝ × ℝ
  hull : List (ℝ × ℝ)
  target : ℝ × ℝ
  exPolys : List (List (ℝ × ℝ))
  coreOpacity : ℝ
  glowOpacity : ℝ
  spawnTime : ℝ
  fadeDuration : ℝ
  center : ℝ × ℝ
  wanderTheta : ℝ

instance : Inhabited GoreBall :=
  ⟨⟨(0, 0), (0, 0), [], (0, 0), [], 0, 0, 0, 0, (0, 0), 0⟩⟩

/-- The `Math.random()` draws consumed by one agent in one `update` call. -/
structure BallRand where
  retargetRand : ℝ
  targetTries : List (ℕ × ℝ × ℝ)
  wanderRand : ℝ
  jitterAngleRand : ℝ
  jitterSpeedRand : ℝ

/-- The per-agent body of `BallsManager.update`: fade-in, retargeting, wander
and seek steering, velocity smoothing, jitter, speed clamp, then the guarded
position commit (valid proposal, else inward-adjusted bisection with 0.9
velocity damping).  `now` is the wall-clock milliseconds. -/
noncomputable def updateBall (now dt : ℝ) (r : BallRand) (b : GoreBall) :
    GoreBall :=
  let t := min 1 ((now - b.spawnTime) / b.fadeDuration)
  let ease := t * t * (3 - 2 * t)
  let coreOp := 1 * ease
  let glowOp := (7/20) * ease
  let toTarget := subV b.target b.pos
  let target1 :=
    if vecLength toTarget < 2/25 ∨ r.retargetRand < 1/200 then
      randomAllowedPointInside b.hull b.exPolys b.center r.targetTries
    else b.target
  let wander1 := b.wanderTheta + (r.wanderRand - 1/2) * (3/5) * dt
  let wanderDir := (Real.cos wander1, Real.sin wander1)
  let seekDir := normalizeV (subV target1 b.pos)
  let desired := addV (smulV (9/50) seekDir) (smulV (3/50) wanderDir)
  let vel1 := lerpV b.vel desired (4/5 * dt)
  let vel2 := addV vel1
    (smulV (1/2 * dt) (randomVelocity 0 (3/100) r.jitterAngleRand r.jitterSpeedRand))
  let vel3 := clampSpeed vel2
  let proposed := addV b.pos (smulV dt vel3)
  if pointValidLocal proposed b.hull b.exPolys then
    { b with coreOpacity := coreOp, glowOpacity := glowOp, target := target1,
             wanderTheta := wander1, vel := vel3, pos := proposed }
  else
    let inward := smulV (3/25) (normalizeV (subV b.center b.pos))
    let adjustedVel := addV vel3 inward
    let chosen := bisectChosen b.hull b.exPolys b.pos adjustedVel dt 6 0 1 b.pos
    { b with coreOpacity := coreOp, glowOpacity := glowOp, target := target1,
             wanderTheta := wander1, vel := smulV (9/10) vel3, pos := chosen }

/-- The fields of `BallsManager` relevant to the simulation step. -/
structure BallsManagerState where
  active : Bool
  balls : List GoreBall

/-- `BallsManager.update(dt)`: early return when inactive or empty, else the
per-agent update for every ball (the proximity-glow pass only feeds shader
uniforms).  `rs i` supplies the random draws of the `i`-th agent. -/
noncomputable def managerUpdate (now dt : ℝ) (rs : ℕ → BallRand)
    (m : BallsManagerState) : BallsManagerState :=
  if m.active = false ∨ m.balls.length = 0 then m
  else { m with balls := m.balls.mapIdx fun i b => updateBall now dt (rs i) b }

theorem vecLength_nonneg (v : ℝ × ℝ) : 0 ≤ vecLength v := Real.sqrt_nonneg _

theorem vecLength_smulV (c : ℝ) (v : ℝ × ℝ) :
    vecLength (smulV c v) = |c| * vecLength v := by
  simp only [vecLength, smulV]
  rw [show (c * v.1) ^ 2 + (c * v.2) ^ 2 = c ^ 2 * (v.1 ^ 2 + v.2 ^ 2) by ring,
    Real.sqrt_mul (sq_nonneg c), Real.sqrt_sq_eq_abs]

/-- C9 counterexample: an agent with zero pre-clamp velocity keeps speed `0`
through the clamping step (the `< minS` branch multiplies the zero vector),
so the post-clamp speed is not in `[0.05, 0.22]`. -/
theorem c9_speed_clamp_counterexample :
    ¬ (1/20 ≤ vecLength (clampSpeed ((0:ℝ), (0:ℝ))) ∧
       vecLength (clampSpeed ((0:ℝ), (0:ℝ))) ≤ 11/50) := by
  have h0 : vecLength ((0:ℝ), (0:ℝ)) = 0 := by
    simp [vecLength]
  have hcl : clampSpeed ((0:ℝ), (0:ℝ)) = ((0:ℝ), (0:ℝ)) := by
    simp only [clampSpeed, h0]
    norm_num [smulV, Prod.ext_iff]
  rw [hcl, h0]
  norm_num

/-- C9 (amended): whenever the pre-clamp speed is at least the `1e-6` floor
used by the minimum-speed branch, the post-clamp speed of the agent lies in
the closed interval `[0.05, 0.22]` (speeds below `1e-6`, in particular an
exactly zero velocity, are scaled by the floor instead and stay below 0.05). -/
theorem c9_speed_clamped_into_range (vel : ℝ × ℝ)
    (h : 1/1000000 ≤ vecLength vel) :
    1/20 ≤ vecLength (clampSpeed vel) ∧
    vecLength (clampSpeed vel) ≤ 11/50 := by
  have hpos : 0 < vecLength vel := lt_of_lt_of_le (by norm_num) h
  have hne : vecLength vel ≠ 0 := ne_of_gt hpos
  simp only [clampSpeed]
  split_ifs with h1 h2 h3
  · exact absurd (h2.trans h1) (by norm_num)
  · rw [vecLength_smulV, max_eq_left h,
      abs_of_pos (div_pos (by norm_num) hpos), div_mul_cancel₀ _ hne]
    norm_num
  · rw [vecLength_smulV,
      abs_of_pos (div_pos (by norm_num) hpos), div_mul_cancel₀ _ hne]
    norm_num
  · exact ⟨le_of_not_lt h1, le_of_not_lt h3⟩

/-- C9 witness: a pre-clamp velocity of speed 1/10. -/
theorem c9_speed_clamped_witness :
    (1/1000000 : ℝ) ≤ vecLength ((1/10 : ℝ), 0) ∧
    (1/20 ≤ vecLength (clampSpeed ((1/10 : ℝ), 0)) ∧
      vecLength (clampSpeed ((1/10 : ℝ), 0)) ≤ 11/50) :=
  have hl : vecLength ((1/10 : ℝ), 0) = 1/10 := by
    rw [vecLength, show ((1/10:ℝ)) ^ 2 + (0:ℝ) ^ 2 = (1/10) ^ 2 by ring,
      Real.sqrt_sq (by norm_num)]
  ⟨by rw [hl]; norm_num,
    c9_speed_clamped_into_range ((1/10 : ℝ), 0) (by rw [hl]; norm_num)⟩

theorem updateBall_region_fields (now dt : ℝ) (r : BallRand) (b : GoreBall) :
    (updateBall now dt r b).hull = b.hull ∧
    (updateBall now dt r b).exPolys = b.exPolys ∧
    (updateBall now dt r b).center = b.center ∧
    (updateBall now dt r b).spawnTime = b.spawnTime ∧
    (updateBall now dt r b).fadeDuration = b.fadeDuration := by
  simp only [updateBall]
  split_ifs <;> exact ⟨rfl, rfl, rfl, rfl, rfl⟩

theorem bisectChosen_valid (hull : List (ℝ × ℝ))
    (exPolys : List (List (ℝ × ℝ))) (pos adjVel : ℝ × ℝ) (dt : ℝ) :
    ∀ (n : ℕ) (lo hi : ℝ) (chosen : ℝ × ℝ),
      pointValidLocal chosen hull exPolys = true →
      pointValidLocal (bisectChosen hull exPolys pos adjVel dt n lo hi chosen)
        hull exPolys = true := by
  intro n
  induction n with
  | zero =>
      intro lo hi chosen h
      simpa [bisectChosen] using h
  | succ k ih =>
      intro lo hi chosen h
      simp only [bisectChosen]
      split_ifs with hv
      · exact ih _ _ _ hv
      · exact ih _ _ _ h

theorem updateBall_keeps_valid (now dt : ℝ) (r : BallRand) (b : GoreBall)
    (h : pointValidLocal b.pos b.hull b.exPolys = true) :
    pointValidLocal (updateBall now dt r b).pos (updateBall now dt r b).hull
      (updateBall now dt r b).exPolys = true := by
  rw [(updateBall_region_fields now dt r b).1,
    (updateBall_region_fields now dt r b).2.1]
  simp only [updateBall]
  split_ifs with hre hv hv
  · simpa using hv
  · exact bisectChosen_valid b.hull b.exPolys b.pos _ dt 6 0 1 b.pos h
  · simpa using hv
  · exact bisectChosen_valid b.hull b.exPolys b.pos _ dt 6 0 1 b.pos h

theorem managerUpdate_getD (now dt : ℝ) (rs : ℕ → BallRand)
    (m : BallsManagerState) (i : ℕ) :
    (managerUpdate now dt rs m).balls.getD i default =
      (m.balls.getD i default) ∨
    (managerUpdate now dt rs m).balls.getD i default =
      updateBall now dt (rs i) (m.balls.getD i default) := by
  simp only [managerUpdate]
  split_ifs with h
  · exact Or.inl rfl
  · by_cases hi : i < m.balls.length
    · refine Or.inr ?_
      simp only [List.getD_eq_getElem?_getD, List.getElem?_mapIdx,
        List.getElem?_eq_getElem hi, Option.map_some]
      rfl
    · refine Or.inl ?_
      rw [List.getD_eq_default _ _ (by simpa using not_lt.mp hi),
        List.getD_eq_default _ _ (not_lt.mp hi)]

/-- C10: a `BallsManager.update` step leaves every agent's boundary hull,
exclusion polygons, panel centroid, spawn time and fade duration unchanged;
only the motion state (position, velocity, wander heading, seek target) and
the fade-in opacities are written. -/
theorem c10_update_preserves_region_fields (now dt : ℝ) (rs : ℕ → BallRand)
    (m : BallsManagerState) (i : ℕ) :
    ((managerUpdate now dt rs m).balls.getD i default).hull =
      (m.balls.getD i default).hull ∧
    ((managerUpdate now dt rs m).balls.getD i default).exPolys =
      (m.balls.getD i default).exPolys ∧
    ((managerUpdate now dt rs m).balls.getD i default).center =
      (m.balls.getD i default).center ∧
    ((managerUpdate now dt rs m).balls.getD i default).spawnTime =
      (m.balls.getD i default).spawnTime ∧
    ((managerUpdate now dt rs m).balls.getD i default).fadeDuration =
      (m.balls.getD i default).fadeDuration := by
  rcases managerUpdate_getD now dt rs m i with h | h
  · rw [h]
    exact ⟨rfl, rfl, rfl, rfl, rfl⟩
  · rw [h]
    exact updateBall_region_fields now dt (rs i) (m.balls.getD i default)

/-- C4: an agent whose position is valid (inside its hull, in no exclusion
polygon) before a `BallsManager.update(dt)` step still has a valid position
after the step: a tentative position is committed only when it passes the
validity test, and otherwise the 6-iteration bisection commits the last valid
fractional step, keeping the old (valid) position when none is found. -/
theorem c4_agent_never_leaves_allowed_region (now dt : ℝ) (rs : ℕ → BallRand)
    (m : BallsManagerState) (i : ℕ)
    (h : pointValidLocal (m.balls.getD i default).pos
      (m.balls.getD i default).hull (m.balls.getD i default).exPolys = true) :
    pointValidLocal ((managerUpdate now dt rs m).balls.getD i default).pos
      ((managerUpdate now dt rs m).balls.getD i default).hull
      ((managerUpdate now dt rs m).balls.getD i default).exPolys = true := by
  rcases managerUpdate_getD now dt rs m i with heq | heq
  · rw [heq]
    exact h
  · rw [heq]
    exact updateBall_keeps_valid now dt (rs i) _ h

/-- A concrete square boundary hull for witness evaluation. -/
def c4Hull : List (ℝ × ℝ) := [(0, 0), (4, 0), (4, 4), (0, 4)]

/-- A concrete agent sitting at the hull's centre with no exclusions. -/
def c4Ball : GoreBall :=
  ⟨(2, 2), (0, 0), c4Hull, (1, 1), [], 0, 0, 0, 1, (2, 2), 0⟩

/-- A concrete one-agent manager. -/
def c4Manager : BallsManagerState := ⟨true, [c4Ball]⟩

/-- Concrete random draws (retarget draw 1 suppresses retargeting). -/
def c4Rands : ℕ → BallRand := fun _ => ⟨1, [], 1, 0, 0⟩

theorem c4Hull_contains_center : pointValidLocal ((2:ℝ), 2) c4Hull [] = true := by
  have he : polyEdges c4Hull =
      [(((0:ℝ), (0:ℝ)), ((0:ℝ), (4:ℝ))), (((4:ℝ), (0:ℝ)), ((0:ℝ), (0:ℝ))),
        (((4:ℝ), (4:ℝ)), ((4:ℝ), (0:ℝ))), (((0:ℝ), (4:ℝ)), ((4:ℝ), (4:ℝ)))] := rfl
  simp only [pointValidLocal, pointInPolygon, he, List.all_nil, Bool.and_true]
  simp only [pointInPolygonAux]
  norm_num [onEdgeProp, intersectProp]

/-- C4 witness: the concrete agent is valid before and after one update. -/
theorem c4_agent_never_leaves_witness :
    pointValidLocal (c4Manager.balls.getD 0 default).pos
      (c4Manager.balls.getD 0 default).hull
      (c4Manager.balls.getD 0 default).exPolys = true ∧
    pointValidLocal
      ((managerUpdate 0 (1/60) c4Rands c4Manager).balls.getD 0 default).pos
      ((managerUpdate 0 (1/60) c4Rands c4Manager).balls.getD 0 default).hull
      ((managerUpdate 0 (1/60) c4Rands c4Manager).balls.getD 0 default).exPolys =
      true :=
  ⟨c4Hull_contains_center,
    c4_agent_never_leaves_allowed_region 0 (1/60) c4Rands c4Manager 0
      c4Hull_contains_center⟩

/-! ## Convex-hull fallback (claim C7) -/

/-- The centroid of a point list (claim side: centroid of the input points). -/
noncomputable def centroidPts (pts : List (ℝ × ℝ)) : ℝ × ℝ :=
  ((pts.map Prod.fst).sum / pts.length, (pts.map Prod.snd).sum / pts.length)

/-- The maximum point-to-centroid distance of a point list (claim side). -/
noncomputable def maxCentroidDist (pts : List (ℝ × ℝ)) : ℝ :=
  pts.foldl (fun m p => max m (distV p (centroidPts pts))) 0

/-- The axis-aligned square of half-width `r` centred at `c`, in the corner
order produced by the fallback. -/
def squareAround (c : ℝ × ℝ) (r : ℝ) : List (ℝ × ℝ) :=
  [(c.1 - r, c.2 - r), (c.1 + r, c.2 - r), (c.1 + r, c.2 + r), (c.1 - r, c.2 + r)]

theorem rawChainHull_single : rawChainHull [((0:ℝ), 0)] = [] := rfl

/-- C7 counterexample: the single-point input is degenerate (0 chain points),
but the fallback square has half-width `max(0.01, 0) = 0.01`, not the claimed
maximum point-to-centroid distance `0`. -/
theorem c7_fallback_counterexample :
    (rawChainHull [((0:ℝ), 0)]).length < 3 ∧ [((0:ℝ), 0)] ≠ [] ∧
    buildConvexHull2D [((0:ℝ), 0)] ≠
      squareAround (centroidPts [((0:ℝ), 0)]) (maxCentroidDist [((0:ℝ), 0)]) := by
  refine ⟨by rw [rawChainHull_single]; norm_num, by simp, ?_⟩
  have hd : distV ((0:ℝ), 0) (centroidPts [((0:ℝ), 0)]) = 0 := by
    simp [distV, centroidPts]
  have hmax : maxCentroidDist [((0:ℝ), 0)] = 0 := by
    simp only [maxCentroidDist, List.foldl]
    rw [hd]
    exact max_self 0
  have hbuild : buildConvexHull2D [((0:ℝ), 0)] =
      [(-(1/100), -(1/100)), (1/100, -(1/100)), (1/100, 1/100), (-(1/100), 1/100)] := by
    rw [buildConvexHull2D]
    rw [if_pos ⟨by rw [rawChainHull_single]; norm_num, by simp [List.insertionSort]⟩]
    have hsort : [((0:ℝ), 0)].insertionSort hullLe = [((0:ℝ), 0)] := rfl
    rw [hsort]
    norm_num [distV, Real.sqrt_zero, Prod.ext_iff]
  rw [hbuild, hmax]
  intro hcontra
  have h1 := congrArg (fun l => l.headI.1) hcontra
  simp [squareAround, centroidPts] at h1

theorem foldl_max_shift (d : (ℝ × ℝ) → ℝ) (l : List (ℝ × ℝ)) :
    ∀ a b : ℝ, l.foldl (fun m p => max m (d p)) (max a b) =
      max a (l.foldl (fun m p => max m (d p)) b) := by
  induction l with
  | nil => intro a b; rfl
  | cons p l ih =>
      intro a b
      simp only [List.foldl]
      rw [max_assoc, ih]

/-- C7 (amended): on every nonempty input whose monotonic-chain construction
yields fewer than 3 hull points, `buildConvexHull2D` returns the 4-vertex
axis-aligned square centred at the centroid of the input points whose
half-width is the maximum point-to-centroid distance floored at `0.01` (the
fold computing the radius starts at `0.01`, so inputs tighter than `0.01`
get a square of half-width `0.01`); the degenerate case is recovered locally
and never surfaced as an error. -/
theorem c7_degenerate_fallback_square (points : List (ℝ × ℝ))
    (hne : points ≠ []) (hdeg : (rawChainHull points).length < 3) :
    buildConvexHull2D points =
      squareAround (centroidPts points) (max (1/100) (maxCentroidDist points)) := by
  have hperm : List.Perm (points.insertionSort hullLe) points :=
    List.perm_insertionSort hullLe points
  have hlen : (points.insertionSort hullLe).length = points.length :=
    hperm.length_eq
  have hpos : 0 < points.length := List.length_pos.mpr hne
  rw [buildConvexHull2D]
  rw [if_pos ⟨hdeg, by rw [hlen]; exact hpos⟩]
  have hc : ((points.insertionSort hullLe).map Prod.fst).sum /
        ((points.insertionSort hullLe).length : ℝ) = (points.map Prod.fst).sum / points.length ∧
      ((points.insertionSort hullLe).map Prod.snd).sum /
        ((points.insertionSort hullLe).length : ℝ) = (points.map Prod.snd).sum / points.length := by
    constructor
    · rw [List.Perm.sum_eq (hperm.map Prod.fst), hlen]
    · rw [List.Perm.sum_eq (hperm.map Prod.snd), hlen]
  have hfold : ∀ c : ℝ × ℝ,
      (points.insertionSort hullLe).foldl (fun m p => max m (distV p c)) (1/100) =
        points.foldl (fun m p => max m (distV p c)) (1/100) := by
    intro c
    have rc : RightCommutative (fun (m : ℝ) (p : ℝ × ℝ) => max m (distV p c)) :=
      ⟨fun b p q => by rw [max_assoc, max_comm (distV p c), ← max_assoc]⟩
    exact @List.Perm.foldl_eq _ _ _ _ _ rc hperm (1/100)
  rw [hc.1, hc.2]
  simp only [squareAround, centroidPts, maxCentroidDist]
  have h00 : max (1/100 : ℝ) 0 = 1/100 := max_eq_left (by norm_num)
  have hsh : points.foldl (fun m p => max m (distV p
        ((points.map Prod.fst).sum / (points.length : ℝ),
          (points.map Prod.snd).sum / (points.length : ℝ)))) (1/100) =
      max (1/100) (points.foldl (fun m p => max m (distV p
        ((points.map Prod.fst).sum / (points.length : ℝ),
          (points.map Prod.snd).sum / (points.length : ℝ)))) 0) := by
    nth_rewrite 1 [← h00]
    rw [foldl_max_shift]
  rw [hfold ((points.map Prod.fst).sum / (points.length : ℝ),
    (points.map Prod.snd).sum / (points.length : ℝ)), hsh]

/-- C7 witness: the single-point degenerate input. -/
theorem c7_degenerate_fallback_witness :
    ([((0:ℝ), 0)] ≠ ([] : List (ℝ × ℝ))) ∧
    ((rawChainHull [((0:ℝ), 0)]).length < 3) ∧
    buildConvexHull2D [((0:ℝ), 0)] =
      squareAround (centroidPts [((0:ℝ), 0)])
        (max (1/100) (maxCentroidDist [((0:ℝ), 0)])) :=
  ⟨by simp, by rw [rawChainHull_single]; norm_num,
    c7_degenerate_fallback_square [((0:ℝ), 0)] (by simp)
      (by rw [rawChainHull_single]; norm_num)⟩

/-! ## Validity test on convex hulls (claim C8)

`pointInPolygon` walks the edges `(poly[i], poly[i-1])`; we show that at the
centroid of a strictly convex counterclockwise vertex list (the shape
`buildConvexHull2D` produces) the ray cast reports inside.  `vtx` is indexed
access with a default, `prevIdx` the cyclic predecessor used by the loop. -/

/-- Indexed vertex access. -/
def vtx (hull : List (ℝ × ℝ)) (i : ℕ) : ℝ × ℝ := hull.getD i (0, 0)

/-- The cyclic predecessor index `j` paired with `i` by the ray-casting loop. -/
def prevIdx (n i : ℕ) : ℕ := (i + (n - 1)) % n

/-- Strictly convex position in counterclockwise order: every vertex other
than the endpoints of the directed edge `prev i → i` lies strictly to its
left.  This is the shape of the hulls the monotonic chain builds. -/
def ConvexPos (hull : List (ℝ × ℝ)) : Prop :=
  ∀ i j : ℕ, i < hull.length → j < hull.length →
    j ≠ i → j ≠ prevIdx hull.length i →
    0 < crossV (vtx hull (prevIdx hull.length i)) (vtx hull i) (vtx hull j)

theorem prevIdx_lt (n i : ℕ) (hn : 0 < n) : prevIdx n i < n :=
  Nat.mod_lt _ hn

theorem prevIdx_eq (n i : ℕ) (hn : 0 < n) (hi : i < n) :
    prevIdx n i = if i = 0 then n - 1 else i - 1 := by
  unfold prevIdx
  split_ifs with h0
  · subst h0
    rw [Nat.zero_add]
    exact Nat.mod_eq_of_lt (by omega)
  · have h1 : i + (n - 1) = (i - 1) + n := by omega
    rw [h1, Nat.add_mod_right]
    exact Nat.mod_eq_of_lt (by omega)

theorem prevIdx_inj (n i k : ℕ) (hn : 0 < n) (hi : i < n) (hk : k < n)
    (h : prevIdx n i = prevIdx n k) : i = k := by
  rw [prevIdx_eq n i hn hi, prevIdx_eq n k hn hk] at h
  split_ifs at h with h1 h2 h2 <;> omega

/-- The x-coordinate at height `qy` of the line through `b` and `a`, anchored
at `b` exactly as the ray-crossing formula computes it. -/
noncomputable def edgeX (b a : ℝ × ℝ) (qy : ℝ) : ℝ :=
  (a.1 - b.1) * (qy - b.2) / (a.2 - b.2) + b.1

theorem crossV_edgeX (a b q : ℝ × ℝ) (hne : a.2 ≠ b.2) :
    crossV a b q = (b.2 - a.2) * (edgeX b a q.2 - q.1) := by
  have hne2 : a.2 - b.2 ≠ 0 := sub_ne_zero.mpr hne
  unfold crossV edgeX
  field_simp
  ring

/-- The crossing test of the loop counts exactly the upward-crossing edges
once the query point is strictly left of the directed edge `a → b`
(`vi = b` the current vertex, `vj = a` the previous one). -/
theorem intersectProp_iff_upward (a b q : ℝ × ℝ)
    (hcross : 0 < crossV a b q) :
    intersectProp q b a ↔ (a.2 ≤ q.2 ∧ q.2 < b.2) := by
  constructor
  · rintro ⟨h1, h2⟩
    by_cases hb : b.2 > q.2
    · refine ⟨?_, hb⟩
      by_contra ha
      exact h1 ⟨fun _ => lt_of_not_le ha, fun _ => hb⟩
    · exfalso
      have ha : a.2 > q.2 := by
        by_contra ha
        exact h1 ⟨fun h => absurd h hb, fun h => absurd h ha⟩
      have hne : a.2 ≠ b.2 := by
        intro he
        rw [he] at ha
        exact hb ha
      have hd : a.2 - b.2 ≠ 0 := sub_ne_zero.mpr hne
      rw [if_neg hd] at h2
      have hX : q.1 < edgeX b a q.2 := h2
      have hid := crossV_edgeX a b q hne
      rcases mul_pos_iff.mp (hid ▸ hcross) with ⟨hp, -⟩ | ⟨-, hn⟩
      · have : b.2 ≤ q.2 := not_lt.mp hb
        linarith
      · linarith
  · rintro ⟨ha, hb⟩
    have hne : a.2 ≠ b.2 := by
      intro he
      rw [he] at ha
      exact absurd hb (not_lt.mpr ha)
    have hd : a.2 - b.2 ≠ 0 := sub_ne_zero.mpr hne
    refine ⟨?_, ?_⟩
    · intro hiff
      exact absurd (hiff.mp hb) (not_lt.mpr ha)
    · rw [if_neg hd]
      show q.1 < edgeX b a q.2
      have hid := crossV_edgeX a b q hne
      rcases mul_pos_iff.mp (hid ▸ hcross) with ⟨-, hp⟩ | ⟨hn, -⟩
      · linarith
      · linarith

/-- C8 part (a) in isolation: a point that the ray-casting test places inside
some exclusion polygon is reported invalid, boundary hull notwithstanding. -/
theorem pointValidLocal_false_of_excluded (p : ℝ × ℝ) (hull : List (ℝ × ℝ))
    (exPolys : List (List (ℝ × ℝ))) (poly : List (ℝ × ℝ))
    (hmem : poly ∈ exPolys) (hin : pointInPolygon p poly = true) :
    pointValidLocal p hull exPolys = false := by
  unfold pointValidLocal
  rcases h : pointInPolygon p hull with _ | _
  · rfl
  · rw [Bool.true_and]
    rw [List.all_eq_false]
    exact ⟨poly, hmem, by simp [hin]⟩

theorem pipAux_true_of_onEdge (p : ℝ × ℝ) :
    ∀ (es : List ((ℝ × ℝ) × (ℝ × ℝ))) (b : Bool),
      (∃ e ∈ es, onEdgeProp p e.1 e.2) →
      pointInPolygonAux p es b = true := by
  intro es
  induction es with
  | nil =>
      rintro b ⟨e, he, -⟩
      exact absurd he (List.not_mem_nil e)
  | cons e rest ih =>
      rintro b ⟨f, hf, hfe⟩
      obtain ⟨vi, vj⟩ := e
      simp only [pointInPolygonAux]
      by_cases h : onEdgeProp p vi vj
      · rw [if_pos h]
      · rw [if_neg h]
        rcases List.mem_cons.mp hf with rfl | hrest
        · exact absurd hfe h
        · exact ih _ ⟨f, hrest, hfe⟩

theorem pipAux_parity (p : ℝ × ℝ) :
    ∀ (es : List ((ℝ × ℝ) × (ℝ × ℝ))) (b : Bool),
      (∀ e ∈ es, ¬ onEdgeProp p e.1 e.2) →
      pointInPolygonAux p es b =
        (b != decide
          ((es.countP fun e => decide (intersectProp p e.1 e.2)) % 2 = 1)) := by
  intro es
  induction es with
  | nil =>
      intro b h
      simp [pointInPolygonAux]
  | cons e rest ih =>
      intro b h
      obtain ⟨vi, vj⟩ := e
      simp only [pointInPolygonAux]
      rw [if_neg (h (vi, vj) (List.mem_cons_self _ _))]
      rw [ih _ fun f hf => h f (List.mem_cons_of_mem _ hf)]
      rw [List.countP_cons]
      by_cases hint : intersectProp p vi vj
      · rw [if_pos hint]
        rcases Nat.mod_two_eq_zero_or_one
            (rest.countP fun e => decide (intersectProp p e.1 e.2)) with hc | hc <;>
          cases b <;> simp [hint, Nat.add_mod, hc]
      · rw [if_neg hint]
        simp [hint]

theorem countP_eq_one_of_unique {α : Type} (pred : α → Bool) :
    ∀ (l : List α) (k : ℕ) (hk : k < l.length),
      pred (l.get ⟨k, hk⟩) = true →
      (∀ j (hj : j < l.length), pred (l.get ⟨j, hj⟩) = true → j = k) →
      l.countP pred = 1 := by
  intro l
  induction l with
  | nil =>
      intro k hk
      exact absurd hk (by simp)
  | cons a rest ih =>
      intro k hk hpk huniq
      rw [List.countP_cons]
      cases k with
      | zero =>
          have hpa : pred a = true := hpk
          have hrest : rest.countP pred = 0 := by
            rw [List.countP_eq_zero]
            intro x hx
            obtain ⟨⟨j, hj⟩, rfl⟩ := List.mem_iff_get.mp hx
            intro hpx
            have hj1 : j + 1 < (a :: rest).length := by
              simpa using Nat.succ_lt_succ hj
            have := huniq (j + 1) hj1 hpx
            omega
          simp [hrest, hpa]
      | succ j =>
          have hpa : pred a = false := by
            by_contra hpa
            have hpa2 : pred a = true := by simpa using hpa
            have := huniq 0 (by omega) hpa2
            omega
          have hj : j < rest.length := by simpa using hk
          have hcnt := ih j hj hpk fun j2 hj2 hp2 => by
            have hj21 : j2 + 1 < (a :: rest).length := by
              simpa using Nat.succ_lt_succ hj2
            have := huniq (j2 + 1) hj21 hp2
            omega
          simp [hpa, hcnt]

theorem polyEdges_length (poly : List (ℝ × ℝ)) :
    (polyEdges poly).length = poly.length := by
  simp [polyEdges]

theorem polyEdges_get (poly : List (ℝ × ℝ)) (i : ℕ) (hi : i < poly.length) :
    (polyEdges poly).get ⟨i, by rw [polyEdges_length]; exact hi⟩ =
      (vtx poly i, vtx poly (prevIdx poly.length i)) := by
  have hn : 0 < poly.length := by omega
  have hprev : prevIdx poly.length i < poly.length := prevIdx_lt _ _ hn
  unfold polyEdges vtx prevIdx
  rw [List.get_zip]
  rw [List.get_rotate]
  simp [List.get_eq_getElem, List.getD_eq_getElem poly (0, 0) hi,
    List.getD_eq_getElem poly (0, 0) (Nat.mod_lt _ hn)]
  constructor
  · rw [List.getElem?_eq_getElem hi]
    rfl
  · rw [List.getElem?_eq_getElem (Nat.mod_lt _ hn)]
    rfl

theorem crossV_affine (o a : ℝ × ℝ) (p r : ℝ × ℝ) (t : ℝ) :
    crossV o a ((1 - t) * p.1 + t * r.1, (1 - t) * p.2 + t * r.2) =
      (1 - t) * crossV o a p + t * crossV o a r := by
  simp only [crossV]
  ring

/-- On a strictly convex hull with the query point strictly left of every
edge, the horizontal crossing abscissa of an upward edge `k` lies strictly
left of the one of a different upward edge `i`. -/
theorem edgeX_lt_of_upward (hull : List (ℝ × ℝ)) (q : ℝ × ℝ)
    (hconv : ConvexPos hull)
    (i k : ℕ) (hi : i < hull.length) (hk : k < hull.length) (hik : i ≠ k)
    (hupi : (vtx hull (prevIdx hull.length i)).2 ≤ q.2 ∧
      q.2 < (vtx hull i).2)
    (hupk : (vtx hull (prevIdx hull.length k)).2 ≤ q.2 ∧
      q.2 < (vtx hull k).2) :
    edgeX (vtx hull k) (vtx hull (prevIdx hull.length k)) q.2 <
      edgeX (vtx hull i) (vtx hull (prevIdx hull.length i)) q.2 := by
  have hn : 0 < hull.length := by omega
  set n := hull.length with hndef
  set ai := vtx hull (prevIdx n i) with hai
  set bi := vtx hull i with hbi
  set ak := vtx hull (prevIdx n k) with hak
  set bk := vtx hull k with hbk
  have hk_ne_i : k ≠ i := Ne.symm hik
  have hk_ne_pi : k ≠ prevIdx n i := by
    intro he
    have : bk = ai := by rw [hbk, hai, he]
    rw [this] at hupk
    linarith [hupi.1, hupk.2]
  have hpk_ne_i : prevIdx n k ≠ i := by
    intro he
    have : ak = bi := by rw [hak, hbi, he]
    rw [this] at hupk
    linarith [hupi.2, hupk.1]
  have hpk_ne_pi : prevIdx n k ≠ prevIdx n i := by
    intro he
    exact hik (prevIdx_inj n i k hn hi hk he.symm)
  have c1 : 0 < crossV ai bi ak :=
    hconv i (prevIdx n k) hi (prevIdx_lt n k hn) hpk_ne_i hpk_ne_pi
  have c2 : 0 < crossV ai bi bk := hconv i k hi hk hk_ne_i hk_ne_pi
  have hdk : 0 < bk.2 - ak.2 := by linarith [hupk.1, hupk.2]
  have hdknz : ak.2 - bk.2 ≠ 0 := by intro h; linarith
  set t := (q.2 - ak.2) / (bk.2 - ak.2) with htdef
  have ht0 : 0 ≤ t := div_nonneg (by linarith [hupk.1]) hdk.le
  have ht1 : t < 1 := (div_lt_one hdk).mpr (by linarith [hupk.2])
  have hPk : (edgeX bk ak q.2, q.2) =
      ((1 - t) * ak.1 + t * bk.1, (1 - t) * ak.2 + t * bk.2) := by
    have h2 : q.2 = (1 - t) * ak.2 + t * bk.2 := by
      rw [htdef]
      field_simp
      ring
    have h1 : edgeX bk ak q.2 = (1 - t) * ak.1 + t * bk.1 := by
      unfold edgeX
      rw [htdef]
      field_simp
      ring
    exact Prod.ext h1 h2
  have hcomb : 0 < crossV ai bi (edgeX bk ak q.2, q.2) := by
    rw [hPk, crossV_affine]
    have hp1 : 0 < (1 - t) * crossV ai bi ak := mul_pos (by linarith) c1
    have hp2 : 0 ≤ t * crossV ai bi bk := mul_nonneg ht0 c2.le
    linarith
  have hlt_i : ai.2 < bi.2 := lt_of_le_of_lt hupi.1 hupi.2
  have hid : crossV ai bi (edgeX bk ak q.2, q.2) =
      (bi.2 - ai.2) * (edgeX bi ai q.2 - edgeX bk ak q.2) :=
    crossV_edgeX ai bi (edgeX bk ak q.2, q.2) (ne_of_lt hlt_i)
  rcases mul_pos_iff.mp (hid ▸ hcomb) with ⟨-, hp⟩ | ⟨hneg, -⟩
  · linarith
  · linarith

/-- On a cycle where some index satisfies `P` and some does not, some index
satisfies `P` while its cyclic predecessor does not. -/
theorem exists_cyclic_transition (n : ℕ) (hn : 0 < n) (P : ℕ → Prop)
    (a : ℕ) (ha : a < n) (hpa : ¬ P a) (b : ℕ) (hb : b < n) (hpb : P b) :
    ∃ i, i < n ∧ ¬ P (prevIdx n i) ∧ P i := by
  by_contra hno
  have hstep : ∀ i, i < n → P i → P (prevIdx n i) := by
    intro i hi hp
    by_contra hnp
    exact hno ⟨i, hi, hnp, hp⟩
  have hdown : ∀ s, s < n → P s → ∀ j, j ≤ s → P (s - j) := by
    intro s hs hp j
    induction j with
    | zero =>
        intro hj0
        simpa using hp
    | succ j ihj =>
        intro hj1
        have hjs : j ≤ s := by omega
        have hPj := ihj hjs
        have hlt : s - j < n := by omega
        have hstep2 := hstep (s - j) hlt hPj
        rw [prevIdx_eq n (s - j) hn hlt, if_neg (by omega)] at hstep2
        rw [show s - (j + 1) = s - j - 1 from by omega]
        exact hstep2
  have hP0 : P 0 := by
    have := hdown b hb hpb b (le_refl b)
    simpa using this
  have hPn1 : P (n - 1) := by
    have hstep0 := hstep 0 hn hP0
    rw [prevIdx_eq n 0 hn hn, if_pos rfl] at hstep0
    exact hstep0
  have hPa : P a := by
    have := hdown (n - 1) (by omega) hPn1 (n - 1 - a) (by omega)
    rw [show n - 1 - (n - 1 - a) = a from by omega] at this
    exact this
  exact hpa hPa

theorem list_sum_lt_mul_length (l : List ℝ) (c : ℝ) (hne : l ≠ [])
    (h : ∀ x ∈ l, c < x) : c * l.length < l.sum := by
  induction l with
  | nil => exact absurd rfl hne
  | cons a t ih =>
      rcases eq_or_ne t [] with rfl | hte
      · have ha := h a (List.mem_cons_self a [])
        simp
        linarith
      · have ht := ih hte fun x hx => h x (List.mem_cons_of_mem _ hx)
        have ha := h a (List.mem_cons_self a t)
        simp only [List.sum_cons, List.length_cons]
        push_cast
        linarith

theorem list_sum_le_mul_length (l : List ℝ) (c : ℝ)
    (h : ∀ x ∈ l, x ≤ c) : l.sum ≤ c * l.length := by
  induction l with
  | nil => simp
  | cons a t ih =>
      have ht := ih fun x hx => h x (List.mem_cons_of_mem _ hx)
      have ha := h a (List.mem_cons_self a t)
      simp only [List.sum_cons, List.length_cons]
      push_cast
      linarith

theorem list_sum_lt_of_mem_lt (l : List ℝ) (c x : ℝ) (hx : x ∈ l)
    (hxlt : x < c) (hle : ∀ y ∈ l, y ≤ c) : l.sum < c * l.length := by
  induction l with
  | nil => exact absurd hx (List.not_mem_nil x)
  | cons a t ih =>
      simp only [List.sum_cons, List.length_cons]
      push_cast
      rcases List.mem_cons.mp hx with rfl | hxt
      · have ht := list_sum_le_mul_length t c
          fun y hy => hle y (List.mem_cons_of_mem _ hy)
        linarith
      · have ha := hle a (List.mem_cons_self a t)
        have ht := ih hxt fun y hy => hle y (List.mem_cons_of_mem _ hy)
        linarith

theorem list_sum_eq_range_getD (l : List ℝ) :
    l.sum = ∑ j in Finset.range l.length, l.getD j 0 := by
  induction l with
  | nil => simp
  | cons a t ih =>
      rw [List.sum_cons, List.length_cons, Finset.sum_range_succ']
      simp only [List.getD_cons_succ, List.getD_cons_zero]
      rw [← ih]
      ring

theorem map_sum_eq_range_vtx (hull : List (ℝ × ℝ)) (f : (ℝ × ℝ) → ℝ)
    (hf : f (0, 0) = 0) :
    (hull.map f).sum = ∑ j in Finset.range hull.length, f (vtx hull j) := by
  rw [list_sum_eq_range_getD, List.length_map]
  refine Finset.sum_congr rfl fun j hj => ?_
  have hj2 : j < hull.length := Finset.mem_range.mp hj
  rw [show (0:ℝ) = f (0, 0) from hf.symm, List.getD_map]
  unfold vtx
  rfl

theorem vtx_snd_mem (hull : List (ℝ × ℝ)) (i : ℕ) (hi : i < hull.length) :
    (vtx hull i).2 ∈ hull.map Prod.snd := by
  unfold vtx
  rw [List.getD_eq_getElem hull (0, 0) hi]
  exact List.mem_map_of_mem Prod.snd (List.getElem_mem hi)

theorem mem_map_snd_vtx (hull : List (ℝ × ℝ)) (x : ℝ)
    (hx : x ∈ hull.map Prod.snd) :
    ∃ i, i < hull.length ∧ (vtx hull i).2 = x := by
  obtain ⟨p, hp, rfl⟩ := List.mem_map.mp hx
  obtain ⟨⟨i, hi⟩, rfl⟩ := List.mem_iff_get.mp hp
  refine ⟨i, hi, ?_⟩
  unfold vtx
  rw [List.getD_eq_getElem hull (0, 0) hi]
  rfl

/-- The centroid's height separates the vertices: some vertex is not above
it and some vertex is strictly above it. -/
theorem centroid_y_classes (hull : List (ℝ × ℝ)) (h3 : 3 ≤ hull.length)
    (hconv : ConvexPos hull) :
    (∃ a, a < hull.length ∧ ¬ ((centroidPts hull).2 < (vtx hull a).2)) ∧
    (∃ b, b < hull.length ∧ (centroidPts hull).2 < (vtx hull b).2) := by
  have hn : 0 < hull.length := by omega
  have hnR : (0:ℝ) < (hull.length : ℝ) := by exact_mod_cast hn
  have hlenys : (hull.map Prod.snd).length = hull.length := List.length_map _ _
  have hysne : hull.map Prod.snd ≠ [] := by
    intro h
    rw [← List.length_eq_zero] at h
    omega
  have hqy : (centroidPts hull).2 * hull.length = (hull.map Prod.snd).sum := by
    unfold centroidPts
    field_simp
  constructor
  · by_contra hno
    push_neg at hno
    have hall : ∀ x ∈ hull.map Prod.snd, (centroidPts hull).2 < x := by
      intro x hx
      obtain ⟨i, hi, rfl⟩ := mem_map_snd_vtx hull x hx
      exact hno i hi
    have := list_sum_lt_mul_length (hull.map Prod.snd) (centroidPts hull).2
      hysne hall
    rw [hlenys] at this
    linarith
  · by_contra hno
    push_neg at hno
    have hall : ∀ x ∈ hull.map Prod.snd, x ≤ (centroidPts hull).2 := by
      intro x hx
      obtain ⟨i, hi, rfl⟩ := mem_map_snd_vtx hull x hx
      exact hno i hi
    by_cases hstrict : ∃ x ∈ hull.map Prod.snd, x < (centroidPts hull).2
    · obtain ⟨x, hx, hxlt⟩ := hstrict
      have := list_sum_lt_of_mem_lt (hull.map Prod.snd) (centroidPts hull).2
        x hx hxlt hall
      rw [hlenys] at this
      linarith
    · push_neg at hstrict
      have heq : ∀ i, i < hull.length →
          (vtx hull i).2 = (centroidPts hull).2 := by
        intro i hi
        have hm := vtx_snd_mem hull i hi
        exact le_antisymm (hall _ hm) (hstrict _ hm)
      have hprev1 : prevIdx hull.length 1 = 0 := by
        rw [prevIdx_eq hull.length 1 hn (by omega)]
        simp
      have hc := hconv 1 2 (by omega) (by omega) (by omega)
        (by rw [hprev1]; omega)
      rw [hprev1] at hc
      have h0 := heq 0 (by omega)
      have h1 := heq 1 (by omega)
      have h2 := heq 2 (by omega)
      unfold crossV at hc
      rw [h0, h1, h2] at hc
      nlinarith [hc]

/-- The centroid of a strictly convex counterclockwise vertex list lies
strictly to the left of every directed edge. -/
theorem centroid_left_of_edges (hull : List (ℝ × ℝ)) (h3 : 3 ≤ hull.length)
    (hconv : ConvexPos hull) :
    ∀ i, i < hull.length →
      0 < crossV (vtx hull (prevIdx hull.length i)) (vtx hull i)
        (centroidPts hull) := by
  intro i hi
  have hn : 0 < hull.length := by omega
  have hnR : (0:ℝ) < (hull.length : ℝ) := by exact_mod_cast hn
  have hnne : (hull.length : ℝ) ≠ 0 := ne_of_gt hnR
  set n := hull.length with hndef
  set a := vtx hull (prevIdx n i) with hadef
  set b := vtx hull i with hbdef
  have hSx := map_sum_eq_range_vtx hull Prod.fst rfl
  have hSy := map_sum_eq_range_vtx hull Prod.snd rfl
  have hrw : ∑ j in Finset.range n, crossV a b (vtx hull j)
      = (b.1 - a.1) * ((∑ j in Finset.range n, (vtx hull j).2) - n * a.2)
        - (b.2 - a.2) * ((∑ j in Finset.range n, (vtx hull j).1) - n * a.1) := by
    simp only [crossV]
    rw [Finset.sum_sub_distrib, ← Finset.mul_sum, ← Finset.mul_sum,
      Finset.sum_sub_distrib, Finset.sum_sub_distrib,
      Finset.sum_const, Finset.card_range, nsmul_eq_mul,
      Finset.sum_const, Finset.card_range, nsmul_eq_mul]
  have hkey : crossV a b (centroidPts hull) * n
      = ∑ j in Finset.range n, crossV a b (vtx hull j) := by
    rw [hrw]
    unfold centroidPts crossV
    rw [hSx, hSy, ← hndef]
    field_simp
  have hzero_b : crossV a b b = 0 := by
    unfold crossV
    ring
  have hzero_a : crossV a b a = 0 := by
    unfold crossV
    ring
  have hnonneg : ∀ j ∈ Finset.range n, 0 ≤ crossV a b (vtx hull j) := by
    intro j hj
    have hj2 : j < n := Finset.mem_range.mp hj
    by_cases hji : j = i
    · rw [hji, ← hbdef, hzero_b]
    · by_cases hjp : j = prevIdx n i
      · rw [hjp, ← hadef, hzero_a]
      · exact (hconv i j hi hj2 hji hjp).le
  set p := prevIdx n i with hpdef
  have hj0 : ∃ j0, j0 < n ∧ j0 ≠ i ∧ j0 ≠ p := by
    refine ⟨if i ≠ 0 ∧ p ≠ 0 then 0 else if i ≠ 1 ∧ p ≠ 1 then 1 else 2, ?_⟩
    split_ifs with hc0 hc1 <;> omega
  obtain ⟨j0, hj0n, hj0i, hj0p⟩ := hj0
  have hpos : 0 < crossV a b (vtx hull j0) := hconv i j0 hi hj0n hj0i hj0p
  have hsum : 0 < ∑ j in Finset.range n, crossV a b (vtx hull j) :=
    Finset.sum_pos' hnonneg ⟨j0, Finset.mem_range.mpr hj0n, hpos⟩
  have hprod : 0 < crossV a b (centroidPts hull) * n := by
    rw [hkey]
    exact hsum
  by_contra hle
  push_neg at hle
  nlinarith [mul_nonneg (neg_nonneg.mpr hle) hnR.le]

/-- The ray cast from the centroid counts exactly one crossing. -/
theorem centroid_crossings_count (hull : List (ℝ × ℝ)) (h3 : 3 ≤ hull.length)
    (hconv : ConvexPos hull) :
    (polyEdges hull).countP
      (fun e => decide (intersectProp (centroidPts hull) e.1 e.2)) = 1 := by
  have hn : 0 < hull.length := by omega
  have hq := centroid_left_of_edges hull h3 hconv
  obtain ⟨⟨a0, ha0, hpa⟩, b0, hb0, hpb⟩ := centroid_y_classes hull h3 hconv
  obtain ⟨i0, hi0, hnpi, hpi⟩ := exists_cyclic_transition hull.length hn
    (fun i => (centroidPts hull).2 < (vtx hull i).2) a0 ha0 hpa b0 hb0 hpb
  have hupi0 : (vtx hull (prevIdx hull.length i0)).2 ≤ (centroidPts hull).2 ∧
      (centroidPts hull).2 < (vtx hull i0).2 := ⟨not_lt.mp hnpi, hpi⟩
  apply countP_eq_one_of_unique _ (polyEdges hull) i0
    (by rw [polyEdges_length]; exact hi0)
  · rw [polyEdges_get hull i0 hi0]
    simp only [decide_eq_true_eq]
    exact (intersectProp_iff_upward _ _ _ (hq i0 hi0)).mpr hupi0
  · intro j hj hpj
    rw [polyEdges_length] at hj
    rw [polyEdges_get hull j hj] at hpj
    simp only [decide_eq_true_eq] at hpj
    have hupj := (intersectProp_iff_upward _ _ _ (hq j hj)).mp hpj
    by_contra hne
    have h1 := edgeX_lt_of_upward hull (centroidPts hull) hconv j i0 hj hi0
      hne hupj hupi0
    have h2 := edgeX_lt_of_upward hull (centroidPts hull) hconv i0 j hi0 hj
      (Ne.symm hne) hupi0 hupj
    linarith

/-- The ray-casting test reports the centroid of a strictly convex
counterclockwise hull as inside. -/
theorem pointInPolygon_centroid (hull : List (ℝ × ℝ)) (h3 : 3 ≤ hull.length)
    (hconv : ConvexPos hull) :
    pointInPolygon (centroidPts hull) hull = true := by
  unfold pointInPolygon
  by_cases hoe : ∃ e ∈ polyEdges hull, onEdgeProp (centroidPts hull) e.1 e.2
  · exact pipAux_true_of_onEdge _ _ false hoe
  · push_neg at hoe
    rw [pipAux_parity _ _ false hoe]
    rw [centroid_crossings_count hull h3 hconv]
    simp

/-- C8: `pointValidLocal` vetoes every point the ray cast places inside an
exclusion polygon, regardless of the hull; and on an empty exclusion list it
accepts the centroid of every strictly convex counterclockwise hull with at
least 3 vertices (the shape `buildConvexHull2D` produces). -/
theorem c8_isValid_exclusion_and_centroid
    (hull : List (ℝ × ℝ)) (h3 : 3 ≤ hull.length) (hconv : ConvexPos hull) :
    (∀ (p : ℝ × ℝ) (exPolys : List (List (ℝ × ℝ))) (poly : List (ℝ × ℝ)),
      poly ∈ exPolys → pointInPolygon p poly = true →
      pointValidLocal p hull exPolys = false) ∧
    pointValidLocal (centroidPts hull) hull [] = true := by
  constructor
  · intro p exPolys poly hmem hin
    exact pointValidLocal_false_of_excluded p hull exPolys poly hmem hin
  · unfold pointValidLocal
    rw [pointInPolygon_centroid hull h3 hconv]
    simp

/-- A concrete strictly convex counterclockwise triangle. -/
def c8Tri : List (ℝ × ℝ) := [(0, 0), (4, 0), (0, 4)]

theorem c8Tri_convex : ConvexPos c8Tri := by
  intro i j hi hj hji hjp
  simp only [c8Tri, List.length_cons, List.length_nil] at hi hj
  interval_cases i <;> interval_cases j <;>
    simp_all [prevIdx, vtx, c8Tri, crossV, List.getD_cons_succ,
      List.getD_cons_zero] <;> norm_num

theorem c8_isValid_witness :
    3 ≤ c8Tri.length ∧ ConvexPos c8Tri ∧
      pointValidLocal (centroidPts c8Tri) c8Tri [] = true :=
  ⟨by norm_num [c8Tri], c8Tri_convex,
    (c8_isValid_exclusion_and_centroid c8Tri (by norm_num [c8Tri])
      c8Tri_convex).2⟩

end Sophon
